import Mathlib

/-!
Shallow embedding of the binary settings codec and modpack engine of
`noita_modman` (`src/ext.rs`, `src/app/modpack.rs`,
`src/app/modpack/modsettings.rs`, `src/mod.rs`).

Bytes are modelled as `Nat` values (< 256 in all well-formed data) and Rust
`String`s as their UTF-8 byte lists, with explicit validity predicates.
`f64` values are modelled by their 64-bit IEEE-754 bit pattern, since the
codec reads and writes them as raw big-endian bytes.  Fallible readers
return `Except LoadError`; error constructors correspond to the `bail!` /
`context` failure sites of the source.
-/

namespace Modman

/-- Format-failure taxonomy of the loaders (each constructor corresponds to a
failure site in `ext.rs` / `modpack.rs`). -/
inductive LoadError where
  /-- `read_exact` hit the end of the input (`ext.rs`). -/
  | shortRead
  /-- `compressed_size + 8 != file_size` in `decompress_file`. -/
  | corruptHeader
  /-- `fastlz::decompress` failed in `decompress_file`. -/
  | decompressionFailed
  /-- `Illegal bool value` in `ModSettingValue::load`. -/
  | invalidBool
  /-- `Illegal setting type` in `ModSettingValue::load`. -/
  | invalidTypeId
  /-- `String::from_utf8` failed in `read_str`. -/
  | utf8Error
  /-- entry count mismatch in `ModSettings::load`. -/
  | entryCountMismatch
  /-- nonzero schema version in `ModPack::load`. -/
  | unsupportedSchemaVersion
deriving DecidableEq

instance {ε α : Type} [DecidableEq ε] [DecidableEq α] : DecidableEq (Except ε α) := fun x y =>
  match x, y with
  | .error a, .error b =>
    if h : a = b then .isTrue (by rw [h]) else .isFalse (fun c => by cases c; exact h rfl)
  | .ok a, .ok b =>
    if h : a = b then .isTrue (by rw [h]) else .isFalse (fun c => by cases c; exact h rfl)
  | .error _, .ok _ => .isFalse (fun c => by cases c)
  | .ok _, .error _ => .isFalse (fun c => by cases c)

/-- Big-endian byte encoding of the low `8*w` bits of `n`
(models `write_be` from `ext.rs`, which writes the native bytes reversed). -/
def beBytes : Nat → Nat → List Nat
  | 0, _ => []
  | w + 1, n => beBytes w (n / 256) ++ [n % 256]

/-- Little-endian byte encoding of the low `8*w` bits of `n`
(models `write_le` from `ext.rs`). -/
def leBytes : Nat → Nat → List Nat
  | 0, _ => []
  | w + 1, n => n % 256 :: leBytes w (n / 256)

/-- Value of a big-endian byte list. -/
def beCombine (l : List Nat) : Nat := l.foldl (fun acc b => acc * 256 + b) 0

/-- Value of a little-endian byte list. -/
def leCombine (l : List Nat) : Nat := l.foldr (fun b acc => acc * 256 + b) 0

/-- `read_exact` into a buffer of `n` bytes: returns the bytes read and the
remaining input, or fails when the input is too short. -/
def readBytesE (n : Nat) (l : List Nat) : Except LoadError (List Nat × List Nat) :=
  if n ≤ l.length then .ok (l.take n, l.drop n) else .error .shortRead

/-- `read_be::<T>` for a `w`-byte unsigned integer type (`ext.rs`). -/
def readBeNat (w : Nat) (l : List Nat) : Except LoadError (Nat × List Nat) :=
  match readBytesE w l with
  | .error e => .error e
  | .ok (bs, rest) => .ok (beCombine bs, rest)

/-- `read_le::<T>` for a `w`-byte unsigned integer type (`ext.rs`). -/
def readLeNat (w : Nat) (l : List Nat) : Except LoadError (Nat × List Nat) :=
  match readBytesE w l with
  | .error e => .error e
  | .ok (bs, rest) => .ok (leCombine bs, rest)

/-- One step of the UTF-8 validation DFA (RFC 3629, as enforced by Rust's
`String::from_utf8`).  State `0` is the start state; states `1`-`7` encode
how many continuation bytes remain and the admissible range of the next
byte after an `E0`/`ED`/`F0`/`F4` lead byte. -/
def utf8Step (st b : Nat) : Option Nat :=
  if st = 0 then
    if b < 0x80 then some 0
    else if b < 0xC2 then Option.none
    else if b < 0xE0 then some 1
    else if b = 0xE0 then some 2
    else if b = 0xED then some 3
    else if b < 0xF0 then some 4
    else if b = 0xF0 then some 5
    else if b < 0xF4 then some 7
    else if b = 0xF4 then some 6
    else Option.none
  else if st = 1 then (if 0x80 ≤ b ∧ b < 0xC0 then some 0 else Option.none)
  else if st = 2 then (if 0xA0 ≤ b ∧ b < 0xC0 then some 1 else Option.none)
  else if st = 3 then (if 0x80 ≤ b ∧ b < 0xA0 then some 1 else Option.none)
  else if st = 4 then (if 0x80 ≤ b ∧ b < 0xC0 then some 1 else Option.none)
  else if st = 5 then (if 0x90 ≤ b ∧ b < 0xC0 then some 4 else Option.none)
  else if st = 6 then (if 0x80 ≤ b ∧ b < 0x90 then some 4 else Option.none)
  else if st = 7 then (if 0x80 ≤ b ∧ b < 0xC0 then some 4 else Option.none)
  else Option.none

/-- Run the UTF-8 DFA from state `st`. -/
def validUtf8Go (st : Nat) : List Nat → Bool
  | [] => decide (st = 0)
  | b :: rest =>
    match utf8Step st b with
    | some st2 => validUtf8Go st2 rest
    | Option.none => false

/-- UTF-8 validity of a byte list, as checked by `String::from_utf8`. -/
def validUtf8 (l : List Nat) : Bool := validUtf8Go 0 l

/-- `read_str::<u32>(Big)` from `ext.rs`: 4-byte big-endian length, then that
many bytes which must be valid UTF-8. -/
def readStrBe32 (l : List Nat) : Except LoadError (List Nat × List Nat) :=
  match readBeNat 4 l with
  | .error e => .error e
  | .ok (len, r1) =>
    match readBytesE len r1 with
    | .error e => .error e
    | .ok (bs, r2) => if validUtf8 bs then .ok (bs, r2) else .error .utf8Error

/-- `read_str::<usize>(Little)` from `ext.rs`: 8-byte little-endian length,
then that many bytes which must be valid UTF-8. -/
def readStrLe64 (l : List Nat) : Except LoadError (List Nat × List Nat) :=
  match readLeNat 8 l with
  | .error e => .error e
  | .ok (len, r1) =>
    match readBytesE len r1 with
    | .error e => .error e
    | .ok (bs, r2) => if validUtf8 bs then .ok (bs, r2) else .error .utf8Error

/-- `ModSettingValue` from `modsettings.rs`.  `number` carries the IEEE-754
bit pattern of the `f64` (the codec moves those 8 bytes verbatim), `string`
carries the UTF-8 bytes of the Rust `String`. -/
inductive ModSettingValue where
  | none
  | bool (b : Bool)
  | number (bits : Nat)
  | string (s : List Nat)
deriving DecidableEq

/-- `ModSettingPair` from `modsettings.rs`. -/
structure ModSettingPair where
  current : ModSettingValue
  next : ModSettingValue
deriving DecidableEq

/-- `ModSetting` from `modsettings.rs`. -/
structure ModSetting where
  key : List Nat
  values : ModSettingPair
deriving DecidableEq

/-- `ModSettingValue::type_int`. -/
def ModSettingValue.type_int : ModSettingValue → Nat
  | .none => 0
  | .bool _ => 1
  | .number _ => 2
  | .string _ => 3

/-- `ModSettingValue::save` (the type tag is written separately by the caller). -/
def ModSettingValue.save : ModSettingValue → List Nat
  | .none => []
  | .bool b => beBytes 4 (if b then 1 else 0)
  | .number bits => beBytes 8 bits
  | .string s => beBytes 4 s.length ++ s

/-- `ModSettingValue::load` for a given type tag (the Rust `match` on the
`u32` tag, written as an if-chain over the same literals). -/
def ModSettingValue.load (setting_type : Nat) (l : List Nat) :
    Except LoadError (ModSettingValue × List Nat) :=
  if setting_type = 0 then .ok (.none, l)
  else if setting_type = 1 then
    match readBeNat 4 l with
    | .error e => .error e
    | .ok (bv, r) =>
      if bv = 0 then .ok (.bool false, r)
      else if bv = 1 then .ok (.bool true, r)
      else .error .invalidBool
  else if setting_type = 2 then
    match readBeNat 8 l with
    | .error e => .error e
    | .ok (bits, r) => .ok (.number bits, r)
  else if setting_type = 3 then
    match readStrBe32 l with
    | .error e => .error e
    | .ok (s, r) => .ok (.string s, r)
  else .error .invalidTypeId

/-- `ModSetting::save` from `modpack.rs`: big-endian key length, key bytes,
the two type tags, then the two value payloads. -/
def ModSetting.save (s : ModSetting) : List Nat :=
  beBytes 4 s.key.length ++ s.key
    ++ beBytes 4 s.values.current.type_int ++ beBytes 4 s.values.next.type_int
    ++ s.values.current.save ++ s.values.next.save

/-- `ModSetting::load` from `modpack.rs`. -/
def ModSetting.load (l : List Nat) : Except LoadError (ModSetting × List Nat) :=
  match readStrBe32 l with
  | .error e => .error e
  | .ok (key, r1) =>
    match readBeNat 4 r1 with
    | .error e => .error e
    | .ok (ct, r2) =>
      match readBeNat 4 r2 with
      | .error e => .error e
      | .ok (nt, r3) =>
        match ModSettingValue.load ct r3 with
        | .error e => .error e
        | .ok (cur, r4) =>
          match ModSettingValue.load nt r4 with
          | .error e => .error e
          | .ok (nxt, r5) => .ok (⟨key, ⟨cur, nxt⟩⟩, r5)

/-- Lookup in an association list keyed by byte strings
(models `HashMap::get`). -/
def lookupA {α : Type} (k : List Nat) : List (List Nat × α) → Option α
  | [] => Option.none
  | (k2, v) :: rest => if k2 = k then some v else lookupA k rest

/-- Insert-or-overwrite in an association list (models `HashMap::insert`). -/
def insertA {α : Type} (k : List Nat) (v : α) : List (List Nat × α) → List (List Nat × α)
  | [] => [(k, v)]
  | (k2, v2) :: rest => if k2 = k then (k, v) :: rest else (k2, v2) :: insertA k v rest

/-- Insert every binding of `es`, left to right, into `acc`
(models a `for`-loop of `HashMap::insert`s). -/
def insertAll {α : Type} (acc : List (List Nat × α)) (es : List (List Nat × α)) :
    List (List Nat × α) :=
  es.foldl (fun m e => insertA e.1 e.2 m) acc

/-- Concatenation of byte chunks. -/
def concatBytes : List (List Nat) → List Nat
  | [] => []
  | x :: r => x ++ concatBytes r

/-- Modelled from the spec: the external FastLZ codec (`fastlz::compress`),
which is not part of this repository.  Spec §9 treats it as a substitutable
byte-oriented LZ-family codec with a round-trip contract; this model
compresses a uniform run of at least 11 identical bytes to a 10-byte form
(classic FastLZ level 1 emits 10 bytes for a 16-byte zero run) and stores
anything else as a one-byte-marker literal block. -/
def flzCompress (b : List Nat) : List Nat :=
  match b with
  | [] => [0]
  | z :: _ =>
    if 11 ≤ b.length ∧ b = List.replicate b.length z then 1 :: z :: beBytes 8 b.length
    else 0 :: b

/-- Modelled from the spec: exact content of a compressed block produced by
`flzCompress` (the decompressor side of the external codec). -/
def flzRaw : List Nat → Option (List Nat)
  | [] => Option.none
  | b :: rest =>
    if b = 0 then some rest
    else if b = 1 then
      match rest with
      | [] => Option.none
      | z :: lenBytes =>
        if lenBytes.length = 8 then some (List.replicate (beCombine lenBytes) z) else Option.none
    else Option.none

/-- Models `let mut output = vec![0; n]; fastlz::decompress(&c, &mut output)?; Ok(output)`
from `decompress_file`: decompression into a buffer of `n` bytes fails when
the block's content overflows the buffer, and the *whole* buffer (content
plus untouched zero padding) is returned otherwise. -/
def flzDecompress (c : List Nat) (n : Nat) : Option (List Nat) :=
  match flzRaw c with
  | Option.none => Option.none
  | some d => if n < d.length then Option.none else some (d ++ List.replicate (n - d.length) 0)

/-- The padding of `compress_file`: inputs shorter than 16 bytes are copied
into a zeroed 16-byte buffer before compression. -/
def padTo16 (buf : List Nat) : List Nat :=
  if buf.length < 16 then buf ++ List.replicate (16 - buf.length) 0 else buf

/-- `compress_file` from `modpack.rs`: compress (padding short inputs to the
compressor's 16-byte minimum), then either store the compressed block with
header `[stored][original]`, or fall back to storing the original bytes
verbatim when compression does not win.  The modelled compressor is total,
so the fallible Rust signature collapses to a plain function. -/
def compress_file (buf : List Nat) : List Nat :=
  let out := flzCompress (padTo16 buf)
  if buf.length ≤ out.length then
    leBytes 4 buf.length ++ leBytes 4 buf.length ++ buf
  else
    leBytes 4 out.length ++ leBytes 4 buf.length ++ out

/-- `decompress_file` from `modpack.rs`. -/
def decompress_file (l : List Nat) (file_size : Nat) : Except LoadError (List Nat) :=
  match readLeNat 4 l with
  | .error e => .error e
  | .ok (compressed_size, r1) =>
    if compressed_size + 8 ≠ file_size then .error .corruptHeader
    else
      match readLeNat 4 r1 with
      | .error e => .error e
      | .ok (decompressed_size, r2) =>
        match readBytesE compressed_size r2 with
        | .error e => .error e
        | .ok (compressed, _) =>
          if compressed_size ≠ decompressed_size then
            match flzDecompress compressed decompressed_size with
            | some out => .ok out
            | Option.none => .error .decompressionFailed
          else .ok compressed

/-- The flat settings store: `ModSettings.values`
(`HashMap<String, ModSettingPair>`) as an association list with unique keys. -/
abbrev SettingsStore := List (List Nat × ModSettingPair)

/-- The concatenated wire encodings of the store's entries. -/
def settingsEntriesBytes (s : SettingsStore) : List Nat :=
  concatBytes (s.map (fun e => ModSetting.save ⟨e.1, e.2⟩))

/-- The uncompressed payload written by `ModSettings::save`: 8-byte
big-endian entry count, then every entry. -/
def ModSettings.savePayload (s : SettingsStore) : List Nat :=
  beBytes 8 s.length ++ settingsEntriesBytes s

/-- `ModSettings::save`: build the payload, then `compress_file` it. -/
def ModSettings.save (s : SettingsStore) : List Nat :=
  compress_file (ModSettings.savePayload s)

/-- The `while decompressed.len() != 0` entry loop of `ModSettings::load`,
with explicit fuel.  Each successful iteration consumes at least four bytes,
so fuel `l.length` (as supplied by `loadSettingsLoop`) is never exhausted;
the `.error .shortRead` fuel sentinel is unreachable from the wrapper
(see `loadLoopGo_fuel_irrelevant`). -/
def loadLoopGo :
    Nat → List Nat → List (List Nat × ModSettingPair) → Nat →
    Except LoadError (List (List Nat × ModSettingPair) × Nat)
  | _, [], acc, n => .ok (acc, n)
  | 0, _ :: _, _, _ => .error .shortRead
  | fuel + 1, b :: bs, acc, n =>
    match ModSetting.load (b :: bs) with
    | .error e => .error e
    | .ok (s, rest) => loadLoopGo fuel rest (insertA s.key s.values acc) (n + 1)

/-- The entry loop of `ModSettings::load`: parse entries until the payload is
exhausted, inserting each into the map and counting it. -/
def loadSettingsLoop (l : List Nat) (acc : List (List Nat × ModSettingPair)) (n : Nat) :
    Except LoadError (List (List Nat × ModSettingPair) × Nat) :=
  loadLoopGo l.length l acc n

/-- `ModSettings::load` after decompression: read the expected entry count,
parse entries until exhaustion, and fail unless exactly that many entries
were parsed. -/
def ModSettings.loadPayload (payload : List Nat) : Except LoadError SettingsStore :=
  match readBeNat 8 payload with
  | .error e => .error e
  | .ok (expected, rest) =>
    match loadSettingsLoop rest [] 0 with
    | .error e => .error e
    | .ok (m, num) => if num ≠ expected then .error .entryCountMismatch else .ok m

/-- `ModSettings::load`: decompress the file, then parse the payload. -/
def ModSettings.load (l : List Nat) (file_size : Nat) : Except LoadError SettingsStore :=
  match decompress_file l file_size with
  | .error e => .error e
  | .ok payload => ModSettings.loadPayload payload

/-- Key well-formedness for a Rust `String` on this wire: valid UTF-8 and a
byte length that fits the `u32` length prefix. -/
def keyWF (k : List Nat) : Prop := validUtf8 k = true ∧ k.length < 2 ^ 32

/-- Value well-formedness: string payloads are valid UTF-8 `u32`-length
strings and number payloads fit in 64 bits. -/
def valueWF : ModSettingValue → Prop
  | .none => True
  | .bool _ => True
  | .number bits => bits < 2 ^ 64
  | .string s => validUtf8 s = true ∧ s.length < 2 ^ 32

/-- Well-formedness of a settings pair. -/
def pairWF (p : ModSettingPair) : Prop := valueWF p.current ∧ valueWF p.next

/-- Well-formedness of a store entry. -/
def entryWF (e : List Nat × ModSettingPair) : Prop := keyWF e.1 ∧ pairWF e.2

instance (v : ModSettingValue) : Decidable (valueWF v) :=
  match v with
  | .none => .isTrue trivial
  | .bool _ => .isTrue trivial
  | .number bits => inferInstanceAs (Decidable (bits < 2 ^ 64))
  | .string s => inferInstanceAs (Decidable (validUtf8 s = true ∧ s.length < 2 ^ 32))

instance (k : List Nat) : Decidable (keyWF k) :=
  inferInstanceAs (Decidable (validUtf8 k = true ∧ k.length < 2 ^ 32))

instance (p : ModSettingPair) : Decidable (pairWF p) :=
  inferInstanceAs (Decidable (valueWF p.current ∧ valueWF p.next))

instance (e : List Nat × ModSettingPair) : Decidable (entryWF e) :=
  inferInstanceAs (Decidable (keyWF e.1 ∧ pairWF e.2))

/-- NaN test on an IEEE-754 double bit pattern (exponent all ones and a
nonzero mantissa). -/
def f64IsNaN (bits : Nat) : Bool :=
  decide ((bits / 2 ^ 52) % 2 ^ 11 = 2 ^ 11 - 1 ∧ bits % 2 ^ 52 ≠ 0)

/-- Non-NaN condition on a value (only constrains `number`s). -/
def valueNonNaN : ModSettingValue → Prop
  | .number bits => f64IsNaN bits = false
  | _ => True

/-- Non-NaN condition on a pair. -/
def pairNonNaN (p : ModSettingPair) : Prop := valueNonNaN p.current ∧ valueNonNaN p.next

instance (v : ModSettingValue) : Decidable (valueNonNaN v) :=
  match v with
  | .none => .isTrue trivial
  | .bool _ => .isTrue trivial
  | .number bits => inferInstanceAs (Decidable (f64IsNaN bits = false))
  | .string _ => .isTrue trivial

instance (p : ModSettingPair) : Decidable (pairNonNaN p) :=
  inferInstanceAs (Decidable (valueNonNaN p.current ∧ valueNonNaN p.next))

/-- The settings hierarchy (`ModSettingsGroup` / `ModSettingsNode` from
`modpack.rs`).  The source's `ModSettingsGroup(Vec<(String, ModSettingsNode)>)`
is modelled by fusing the child vector into the node type: a group is a
`gnil`/`gcons` chain of named children, a leaf is a `setting` with its
`ModSettingPair` and its `include` flag (field `incl`, since `include` is a
Lean keyword). -/
inductive ModSettingsNode where
  | setting (pair : ModSettingPair) (incl : Bool)
  | gnil
  | gcons (name : List Nat) (child : ModSettingsNode) (rest : ModSettingsNode)
deriving DecidableEq

/-- `ModSettingsGroup::to_set`, child by child over a group chain.  The
accumulator is the `set` variable of the source loop: for each child, the
child's own set (`"." + e`-prefixed recursive set for a `Group` child, the
empty set for a `Setting` child) is unioned with the accumulator and *every*
element of that union is prefixed with the child's name.  (`46` is the UTF-8
byte of `'.'`.) -/
def toSetStep : ModSettingsNode → Finset (List Nat) → Finset (List Nat)
  | .setting _ _, acc => acc
  | .gnil, acc => acc
  | .gcons name child rest, acc =>
    toSetStep rest
      ((acc ∪ (match child with
        | .setting _ _ => (∅ : Finset (List Nat))
        | c => Finset.image (fun e => 46 :: e) (toSetStep c ∅))).image (fun e => name ++ e))

/-- `ModSettingsGroup::to_set`: run the loop with an empty starting set. -/
def groupToSet (g : ModSettingsNode) : Finset (List Nat) := toSetStep g ∅

/-- `ModSettingsGroup::all_included`, child by child over a group chain.
The accumulator is the `fold` accumulator of the source: `acc && (child's
include state)`, where a `Setting` child contributes its own flag and a
`Group` child contributes its recursive `all_included`. -/
def allIncludedStep : ModSettingsNode → Bool → Bool
  | .setting _ _, acc => acc
  | .gnil, acc => acc
  | .gcons _ child rest, acc =>
    allIncludedStep rest
      (acc && (match child with
        | .setting _ i => i
        | c => allIncludedStep c true))

/-- `ModSettingsGroup::all_included`: fold starting from `true`. -/
def groupAllIncluded (g : ModSettingsNode) : Bool := allIncludedStep g true

/-- `ModSettingsGroup::include_all` (the spec's `toggle_subtree`): set the
`include` flag of every descendant leaf. -/
def includeAll (inc : Bool) : ModSettingsNode → ModSettingsNode
  | .setting pair _ => .setting pair inc
  | .gnil => .gnil
  | .gcons name child rest => .gcons name (includeAll inc child) (includeAll inc rest)

/-- Observer: the `include` flags of every descendant leaf, in traversal
order (used only to state properties about descendants). -/
def leafFlags : ModSettingsNode → List Bool
  | .setting _ i => [i]
  | .gnil => []
  | .gcons _ child rest => leafFlags child ++ leafFlags rest

/-- `ModPack` from `modpack.rs` (its UI-only rendering state omitted). -/
structure ModPack where
  file_name : List Nat
  name : List Nat
  mods : List (List Nat)
  settings : SettingsStore
deriving DecidableEq

/-- `ModPack::save`: schema version 0, length-prefixed name, mod count and
ids, then the *declared* settings count `self.settings.values.len()`
followed by only those entries whose key is in `include.to_set()`. -/
def ModPack.save (p : ModPack) (incl : ModSettingsNode) : List Nat :=
  leBytes 8 0
    ++ leBytes 8 p.name.length ++ p.name
    ++ leBytes 8 p.mods.length
    ++ concatBytes (p.mods.map (fun m => leBytes 8 m.length ++ m))
    ++ leBytes 8 p.settings.length
    ++ concatBytes
      ((p.settings.filter (fun e => decide (e.1 ∈ groupToSet incl))).map
        (fun e => ModSetting.save ⟨e.1, e.2⟩))

/-- The mod-id loop of `ModPack::load_v0`. -/
def loadMods : Nat → List Nat → Except LoadError (List (List Nat) × List Nat)
  | 0, l => .ok ([], l)
  | n + 1, l =>
    match readStrLe64 l with
    | .error e => .error e
    | .ok (m, r) =>
      match loadMods n r with
      | .error e => .error e
      | .ok (ms, r2) => .ok (m :: ms, r2)

/-- The settings loop of `ModPack::load_v0` (count-driven `HashMap` inserts). -/
def loadPackSettings : Nat → List Nat → SettingsStore → Except LoadError SettingsStore
  | 0, _, acc => .ok acc
  | n + 1, l, acc =>
    match ModSetting.load l with
    | .error e => .error e
    | .ok (s, r) => loadPackSettings n r (insertA s.key s.values acc)

/-- `ModPack::load_v0`. -/
def ModPack.load_v0 (file_name : List Nat) (l : List Nat) : Except LoadError ModPack :=
  match readStrLe64 l with
  | .error e => .error e
  | .ok (name, r1) =>
    match readLeNat 8 r1 with
    | .error e => .error e
    | .ok (num_mods, r2) =>
      match loadMods num_mods r2 with
      | .error e => .error e
      | .ok (mods, r3) =>
        match readLeNat 8 r3 with
        | .error e => .error e
        | .ok (num_settings, r4) =>
          match loadPackSettings num_settings r4 [] with
          | .error e => .error e
          | .ok settings => .ok ⟨file_name, name, mods, settings⟩

/-- `ModPack::load`: read the schema version, dispatch on it, and reject any
nonzero version without reading further. -/
def ModPack.load (file_name : List Nat) (l : List Nat) : Except LoadError ModPack :=
  match readLeNat 8 l with
  | .error e => .error e
  | .ok (version, r) =>
    if version = 0 then ModPack.load_v0 file_name r else .error .unsupportedSchemaVersion

/-- `NormalMod` from `mod.rs`. -/
structure NormalMod where
  enabled : Bool
deriving DecidableEq

/-- `ModKind` from `mod.rs`. -/
inductive ModKind where
  | normal (nmod : NormalMod)
  | translation
  | gamemode
deriving DecidableEq

/-- `Mod` from `mod.rs`, restricted to the fields `ModPack::apply` reads or
writes (`id` and `kind`); the purely descriptive fields are carried through
`apply` unchanged and are omitted. -/
structure Mod where
  id : List Nat
  kind : ModKind
deriving DecidableEq

/-- `ModListConfig` from `app.rs`, restricted to the fields `apply` touches. -/
structure ModListConfig where
  mods : List Mod
  mod_settings : SettingsStore
deriving DecidableEq

/-- Whether a mod ends up counted as enabled (a `Normal` mod with its flag
set; other kinds carry no flag). -/
def Mod.isEnabled (m : Mod) : Bool :=
  match m.kind with
  | .normal n => n.enabled
  | _ => false

/-- Position of the first occurrence of `k` (used to state order against a
duplicate-free pack mod list). -/
def idxOfKey (k : List Nat) : List (List Nat) → Nat
  | [] => 0
  | m :: rest => if m = k then 0 else idxOfKey k rest + 1

/-- The `enabled` map of `ModPack::apply`: insert `id -> position` for every
pack mod id, in order. -/
def buildEnabledMap : List (List Nat) → Nat → List (List Nat × Nat) → List (List Nat × Nat)
  | [], _, acc => acc
  | m :: rest, i, acc => buildEnabledMap rest (i + 1) (insertA m i acc)

/-- The first loop of `ModPack::apply`, from list position `i`: flip each
`Normal` mod's flag according to membership in the pack, and collect the
enabled mods (paired with their pack positions) and their list positions. -/
def pass1 (pm : List (List Nat × Nat)) : List Mod → Nat → List Mod × List (Mod × Nat) × List Nat
  | [], _ => ([], [], [])
  | m :: rest, i =>
    match m.kind, lookupA m.id pm with
    | ModKind.normal _, some v =>
      ({ m with kind := ModKind.normal ⟨true⟩ } :: (pass1 pm rest (i + 1)).1,
       ({ m with kind := ModKind.normal ⟨true⟩ }, v) :: (pass1 pm rest (i + 1)).2.1,
       i :: (pass1 pm rest (i + 1)).2.2)
    | ModKind.normal _, Option.none =>
      ({ m with kind := ModKind.normal ⟨false⟩ } :: (pass1 pm rest (i + 1)).1,
       (pass1 pm rest (i + 1)).2.1,
       (pass1 pm rest (i + 1)).2.2)
    | _, _ =>
      (m :: (pass1 pm rest (i + 1)).1, (pass1 pm rest (i + 1)).2.1, (pass1 pm rest (i + 1)).2.2)

/-- Stable insertion by pack position (models the stable `Vec::sort_by_key`):
the new element goes after every earlier element with a key `<` or `=` to
keys seen... it is placed before the first strictly greater key. -/
def insertByKey (x : Mod × Nat) : List (Mod × Nat) → List (Mod × Nat)
  | [] => [x]
  | y :: ys => if x.2 < y.2 then x :: y :: ys else y :: insertByKey x ys

/-- Stable sort by pack position (models `enabled_mods.sort_by_key(|e| e.1)`). -/
def sortByKey : List (Mod × Nat) → List (Mod × Nat)
  | [] => []
  | x :: xs => insertByKey x (sortByKey xs)

/-- The write-back loop of `ModPack::apply`:
`for (nmod, idx) in zip(enabled_mods, enabled_idxs) { mods[idx] = nmod.0 }`. -/
def scatterMods (mods : List Mod) : List (Mod × Nat) → List Nat → List Mod
  | [], _ => mods
  | _ :: _, [] => mods
  | (m, _) :: em, i :: ei => scatterMods (mods.set i m) em ei

/-- `ModPack::apply` from `modpack.rs`. -/
def ModPack.apply (p : ModPack) (cfg : ModListConfig) : ModListConfig :=
  { mods :=
      scatterMods (pass1 (buildEnabledMap p.mods 0 []) cfg.mods 0).1
        (sortByKey (pass1 (buildEnabledMap p.mods 0 []) cfg.mods 0).2.1)
        (pass1 (buildEnabledMap p.mods 0 []) cfg.mods 0).2.2,
    mod_settings := insertAll cfg.mod_settings p.settings }

/-- The flag rewrite `apply` performs on a single mod: a `Normal` mod becomes
enabled exactly when its id is in the pack's `enabled` map; other kinds are
untouched. -/
def flagUpdate (pm : List (List Nat × Nat)) (m : Mod) : Mod :=
  match m.kind, lookupA m.id pm with
  | ModKind.normal _, some _ => { m with kind := ModKind.normal ⟨true⟩ }
  | ModKind.normal _, Option.none => { m with kind := ModKind.normal ⟨false⟩ }
  | _, _ => m

/-- A `(None, None)` settings pair, used by the concrete counterexamples. -/
def pairNone : ModSettingPair := ⟨.none, .none⟩

/-- Concrete hierarchy for C1: a root group with the single leaf `"a"`
(key byte `97`) whose `include` flag is `true`. -/
def inclLeafGroup : ModSettingsNode := .gcons [97] (.setting pairNone true) .gnil

/-- Concrete pack for C2: name `"n"`, no mods, one setting with key `"k"`. -/
def packC2 : ModPack := ⟨[], [110], [], [([107], pairNone)]⟩

/-- Concrete hierarchy for C2: a root group whose single leaf is the pack's
key `"k"` (byte `107`) with `include = true`. -/
def inclGroupC2 : ModSettingsNode := .gcons [107] (.setting pairNone true) .gnil


/-- Concrete pack for C5 (the spec's apply example): mod-id list `[C, A]`. -/
def packC5 : ModPack := ⟨[], [], [[67], [65]], []⟩

/-- Concrete target mod list for C5: `A(false)`, `B(true)`, `C(false)`. -/
def cfgC5 : ModListConfig :=
  ⟨[⟨[65], .normal ⟨false⟩⟩, ⟨[66], .normal ⟨true⟩⟩, ⟨[67], .normal ⟨false⟩⟩], []⟩

/-- Concrete pack for C6: mods `[C, A]` plus a settings entry under key `"k"`. -/
def packC6 : ModPack := ⟨[], [], [[67], [65]], [([107], pairNone)]⟩

/-- Concrete target for C6: same mod list, plus a pre-existing entry under the
same key `"k"` that the pack's entry must overwrite. -/
def cfgC6 : ModListConfig :=
  ⟨[⟨[65], .normal ⟨false⟩⟩, ⟨[66], .normal ⟨true⟩⟩, ⟨[67], .normal ⟨false⟩⟩],
    [([107], ⟨.bool true, .none⟩)]⟩

theorem beBytes_length (w n : Nat) : (beBytes w n).length = w := by
  induction w generalizing n with
  | zero => rfl
  | succ w ih => simp [beBytes, ih]

theorem leBytes_length (w n : Nat) : (leBytes w n).length = w := by
  induction w generalizing n with
  | zero => rfl
  | succ w ih => simp [leBytes, ih]

theorem beCombine_beBytes (w n : Nat) (h : n < 2 ^ (8 * w)) :
    beCombine (beBytes w n) = n := by
  induction w generalizing n with
  | zero => simp at h; simp [h, beBytes, beCombine]
  | succ w ih =>
    have hdiv : n / 256 < 2 ^ (8 * w) := by
      apply Nat.div_lt_of_lt_mul
      have : 2 ^ (8 * (w + 1)) = 2 ^ (8 * w) * 256 := by ring
      omega
    have := ih (n / 256) hdiv
    simp only [beBytes, beCombine] at *
    rw [List.foldl_append]
    simp [this]
    omega

theorem leCombine_leBytes (w n : Nat) (h : n < 2 ^ (8 * w)) :
    leCombine (leBytes w n) = n := by
  induction w generalizing n with
  | zero => simp at h; simp [h, leBytes, leCombine]
  | succ w ih =>
    have hdiv : n / 256 < 2 ^ (8 * w) := by
      apply Nat.div_lt_of_lt_mul
      have : 2 ^ (8 * (w + 1)) = 2 ^ (8 * w) * 256 := by ring
      omega
    have := ih (n / 256) hdiv
    simp only [leBytes, leCombine, List.foldr_cons] at *
    rw [this]
    omega

theorem take_len_append (l r : List α) : (l ++ r).take l.length = l := by
  induction l with
  | nil => rfl
  | cons x xs ih => simp [ih]

theorem drop_len_append (l r : List α) : (l ++ r).drop l.length = r := by
  induction l with
  | nil => rfl
  | cons x xs ih => simp [ih]

theorem readBytesE_exact (l r : List Nat) : readBytesE l.length (l ++ r) = .ok (l, r) := by
  simp [readBytesE, take_len_append, drop_len_append]

theorem readBeNat_beBytes (w n : Nat) (r : List Nat) (h : n < 2 ^ (8 * w)) :
    readBeNat w (beBytes w n ++ r) = .ok (n, r) := by
  have h1 := readBytesE_exact (beBytes w n) r
  rw [beBytes_length] at h1
  simp [readBeNat, h1, beCombine_beBytes w n h]

theorem readLeNat_leBytes (w n : Nat) (r : List Nat) (h : n < 2 ^ (8 * w)) :
    readLeNat w (leBytes w n ++ r) = .ok (n, r) := by
  have h1 := readBytesE_exact (leBytes w n) r
  rw [leBytes_length] at h1
  simp [readLeNat, h1, leCombine_leBytes w n h]

theorem readBytesE_ok_len {n : Nat} {l bs r : List Nat}
    (h : readBytesE n l = .ok (bs, r)) : r.length + n = l.length := by
  unfold readBytesE at h
  split at h
  · cases h
    simp
    omega
  · cases h

theorem readBeNat_ok_len {w : Nat} {l : List Nat} {v : Nat} {r : List Nat}
    (h : readBeNat w l = .ok (v, r)) : r.length + w = l.length := by
  unfold readBeNat at h
  cases h1 : readBytesE w l with
  | error e => simp only [h1] at h; cases h
  | ok x =>
    obtain ⟨bs, rest⟩ := x
    simp only [h1] at h
    cases h
    exact readBytesE_ok_len h1

theorem readLeNat_ok_len {w : Nat} {l : List Nat} {v : Nat} {r : List Nat}
    (h : readLeNat w l = .ok (v, r)) : r.length + w = l.length := by
  unfold readLeNat at h
  cases h1 : readBytesE w l with
  | error e => simp only [h1] at h; cases h
  | ok x =>
    obtain ⟨bs, rest⟩ := x
    simp only [h1] at h
    cases h
    exact readBytesE_ok_len h1

theorem readStrBe32_ok_len {l s r : List Nat}
    (h : readStrBe32 l = .ok (s, r)) : r.length + 4 ≤ l.length := by
  unfold readStrBe32 at h
  cases h1 : readBeNat 4 l with
  | error e => simp only [h1] at h; cases h
  | ok x =>
    obtain ⟨len, r1⟩ := x
    simp only [h1] at h
    cases h2 : readBytesE len r1 with
    | error e => simp only [h2] at h; cases h
    | ok y =>
      obtain ⟨bs, r2⟩ := y
      simp only [h2] at h
      split at h
      · cases h
        have a1 := readBeNat_ok_len h1
        have a2 := readBytesE_ok_len h2
        omega
      · cases h

theorem readStrLe64_ok_len {l s r : List Nat}
    (h : readStrLe64 l = .ok (s, r)) : r.length + 8 ≤ l.length := by
  unfold readStrLe64 at h
  cases h1 : readLeNat 8 l with
  | error e => simp only [h1] at h; cases h
  | ok x =>
    obtain ⟨len, r1⟩ := x
    simp only [h1] at h
    cases h2 : readBytesE len r1 with
    | error e => simp only [h2] at h; cases h
    | ok y =>
      obtain ⟨bs, r2⟩ := y
      simp only [h2] at h
      split at h
      · cases h
        have a1 := readLeNat_ok_len h1
        have a2 := readBytesE_ok_len h2
        omega
      · cases h

theorem valueLoad_ok_len {t : Nat} {l : List Nat} {v : ModSettingValue} {r : List Nat}
    (h : ModSettingValue.load t l = .ok (v, r)) : r.length ≤ l.length := by
  unfold ModSettingValue.load at h
  by_cases t0 : t = 0
  · rw [if_pos t0] at h
    cases h
    omega
  rw [if_neg t0] at h
  by_cases t1 : t = 1
  · rw [if_pos t1] at h
    cases h1 : readBeNat 4 l with
    | error e => simp only [h1] at h; cases h
    | ok x =>
      obtain ⟨bv, r1⟩ := x
      simp only [h1] at h
      have a1 := readBeNat_ok_len h1
      by_cases b0 : bv = 0
      · rw [if_pos b0] at h; cases h; omega
      rw [if_neg b0] at h
      by_cases b1 : bv = 1
      · rw [if_pos b1] at h; cases h; omega
      · rw [if_neg b1] at h; cases h
  rw [if_neg t1] at h
  by_cases t2 : t = 2
  · rw [if_pos t2] at h
    cases h1 : readBeNat 8 l with
    | error e => simp only [h1] at h; cases h
    | ok x =>
      obtain ⟨bits, r1⟩ := x
      simp only [h1] at h
      cases h
      have a1 := readBeNat_ok_len h1
      omega
  rw [if_neg t2] at h
  by_cases t3 : t = 3
  · rw [if_pos t3] at h
    cases h1 : readStrBe32 l with
    | error e => simp only [h1] at h; cases h
    | ok x =>
      obtain ⟨str, r1⟩ := x
      simp only [h1] at h
      cases h
      have a1 := readStrBe32_ok_len h1
      omega
  · rw [if_neg t3] at h
    cases h

theorem modSettingLoad_ok_len {l : List Nat} {s : ModSetting} {r : List Nat}
    (h : ModSetting.load l = .ok (s, r)) : r.length + 4 ≤ l.length := by
  unfold ModSetting.load at h
  cases h1 : readStrBe32 l with
  | error e => simp only [h1] at h; cases h
  | ok x =>
    obtain ⟨key, r1⟩ := x
    simp only [h1] at h
    cases h2 : readBeNat 4 r1 with
    | error e => simp only [h2] at h; cases h
    | ok y =>
      obtain ⟨ct, r2⟩ := y
      simp only [h2] at h
      cases h3 : readBeNat 4 r2 with
      | error e => simp only [h3] at h; cases h
      | ok z =>
        obtain ⟨nt, r3⟩ := z
        simp only [h3] at h
        cases h4 : ModSettingValue.load ct r3 with
        | error e => simp only [h4] at h; cases h
        | ok u =>
          obtain ⟨cur, r4⟩ := u
          simp only [h4] at h
          cases h5 : ModSettingValue.load nt r4 with
          | error e => simp only [h5] at h; cases h
          | ok w2 =>
            obtain ⟨nxt, r5⟩ := w2
            simp only [h5] at h
            cases h
            have a1 := readStrBe32_ok_len h1
            have a2 := readBeNat_ok_len h2
            have a3 := readBeNat_ok_len h3
            have a4 := valueLoad_ok_len h4
            have a5 := valueLoad_ok_len h5
            omega


theorem validUtf8_single_low (b : Nat) (h : b < 128) : validUtf8 [b] = true := by
  simp [validUtf8, validUtf8Go, utf8Step, h]

theorem value_save_load (v : ModSettingValue) (r : List Nat) (hwf : valueWF v) :
    ModSettingValue.load v.type_int (v.save ++ r) = .ok (v, r) := by
  cases v with
  | none => simp [ModSettingValue.load, ModSettingValue.type_int, ModSettingValue.save]
  | bool b =>
    cases b
    · have h0 := readBeNat_beBytes 4 0 r (by decide)
      simp [ModSettingValue.load, ModSettingValue.type_int, ModSettingValue.save, h0]
    · have h1 := readBeNat_beBytes 4 1 r (by decide)
      simp [ModSettingValue.load, ModSettingValue.type_int, ModSettingValue.save, h1]
  | number bits =>
    have hb : bits < 2 ^ (8 * 8) := hwf
    have := readBeNat_beBytes 8 bits r hb
    simp [ModSettingValue.load, ModSettingValue.type_int, ModSettingValue.save, this]
  | string s =>
    obtain ⟨hu, hl⟩ := hwf
    have hl2 : s.length < 2 ^ (8 * 4) := hl
    have h1 := readBeNat_beBytes 4 s.length (s ++ r) hl2
    have h2 := readBytesE_exact s r
    simp [ModSettingValue.load, ModSettingValue.type_int, ModSettingValue.save,
      readStrBe32, List.append_assoc, h1, h2, hu]

theorem typeInt_lt (v : ModSettingValue) : v.type_int < 2 ^ (8 * 4) := by
  cases v <;> simp [ModSettingValue.type_int]

theorem modSetting_save_load (s : ModSetting) (r : List Nat)
    (hk : keyWF s.key) (hp : pairWF s.values) :
    ModSetting.load (ModSetting.save s ++ r) = .ok (s, r) := by
  obtain ⟨hu, hl⟩ := hk
  have hl2 : s.key.length < 2 ^ (8 * 4) := hl
  have hc := typeInt_lt s.values.current
  have hn := typeInt_lt s.values.next
  have h1 := readBeNat_beBytes 4 s.key.length
    (s.key ++ (beBytes 4 s.values.current.type_int ++ (beBytes 4 s.values.next.type_int
      ++ (s.values.current.save ++ (s.values.next.save ++ r))))) hl2
  have h2 := readBytesE_exact s.key
    (beBytes 4 s.values.current.type_int ++ (beBytes 4 s.values.next.type_int
      ++ (s.values.current.save ++ (s.values.next.save ++ r))))
  have h3 := readBeNat_beBytes 4 s.values.current.type_int
    (beBytes 4 s.values.next.type_int ++ (s.values.current.save ++ (s.values.next.save ++ r))) hc
  have h4 := readBeNat_beBytes 4 s.values.next.type_int
    (s.values.current.save ++ (s.values.next.save ++ r)) hn
  have h5 := value_save_load s.values.current (s.values.next.save ++ r) hp.1
  have h6 := value_save_load s.values.next r hp.2
  simp only [ModSetting.load, ModSetting.save, readStrBe32, List.append_assoc,
    h1, h2, h3, h4, h5, h6, hu, if_true]

theorem modSetting_save_length (s : ModSetting) : 12 ≤ (ModSetting.save s).length := by
  simp [ModSetting.save, beBytes_length]
  omega


theorem loadLoopGo_cons (fuel b : Nat) (bs : List Nat) (acc : List (List Nat × ModSettingPair))
    (n : Nat) :
    loadLoopGo (fuel + 1) (b :: bs) acc n =
      match ModSetting.load (b :: bs) with
      | .error e => .error e
      | .ok (s, rest) => loadLoopGo fuel rest (insertA s.key s.values acc) (n + 1) := rfl

theorem loadLoopGo_fuel_irrelevant :
    ∀ (fuel1 fuel2 : Nat) (l : List Nat) acc (n : Nat),
      l.length ≤ fuel1 → l.length ≤ fuel2 →
      loadLoopGo fuel1 l acc n = loadLoopGo fuel2 l acc n := by
  intro fuel1
  induction fuel1 using Nat.strong_induction_on with
  | _ fuel1 ih =>
    intro fuel2 l acc n h1 h2
    match l with
    | [] =>
      match fuel1, fuel2 with
      | 0, 0 => rfl
      | 0, _ + 1 => rfl
      | _ + 1, 0 => rfl
      | _ + 1, _ + 1 => rfl
    | b :: bs =>
      match fuel1, fuel2 with
      | f1 + 1, f2 + 1 =>
        rw [loadLoopGo_cons, loadLoopGo_cons]
        cases hld : ModSetting.load (b :: bs) with
        | error e => rfl
        | ok x =>
          obtain ⟨s, rest⟩ := x
          have hlen := modSettingLoad_ok_len hld
          simp only [List.length_cons] at h1 h2 hlen
          exact ih f1 (by omega) f2 rest _ (n + 1) (by omega) (by omega)

theorem concatBytes_cons (x : List Nat) (r : List (List Nat)) :
    concatBytes (x :: r) = x ++ concatBytes r := rfl

theorem loadLoopGo_entries :
    ∀ (E : SettingsStore) (fuel : Nat) acc (n : Nat),
      (∀ e ∈ E, entryWF e) →
      (settingsEntriesBytes E).length ≤ fuel →
      loadLoopGo fuel (settingsEntriesBytes E) acc n = .ok (insertAll acc E, n + E.length) := by
  intro E
  induction E with
  | nil =>
    intro fuel acc n hwf hf
    match fuel with
    | 0 => rfl
    | _ + 1 => rfl
  | cons e rest ih =>
    intro fuel acc n hwf hf
    have hwfe := hwf e (by simp)
    have hlen := modSetting_save_length ⟨e.1, e.2⟩
    have hbytes : settingsEntriesBytes (e :: rest)
        = ModSetting.save ⟨e.1, e.2⟩ ++ settingsEntriesBytes rest := by
      simp [settingsEntriesBytes, concatBytes_cons]
    rw [hbytes] at hf ⊢
    have hne : ModSetting.save ⟨e.1, e.2⟩ ≠ [] := by
      intro hh
      rw [hh] at hlen
      simp at hlen
    obtain ⟨b, bs, hsv⟩ := List.exists_cons_of_ne_nil hne
    rw [List.length_append] at hf
    match fuel with
    | 0 => omega
    | f + 1 =>
      have hload := modSetting_save_load ⟨e.1, e.2⟩ (settingsEntriesBytes rest) hwfe.1 hwfe.2
      rw [hsv] at hload hf ⊢
      rw [List.cons_append] at hload ⊢
      rw [loadLoopGo_cons, hload]
      show loadLoopGo f (settingsEntriesBytes rest) (insertA e.1 e.2 acc) (n + 1)
        = Except.ok (insertAll acc (e :: rest), n + (e :: rest).length)
      have hrec := ih f (insertA e.1 e.2 acc) (n + 1) (fun x hx => hwf x (by simp [hx]))
        (by simp at hf ⊢; omega)
      rw [hrec]
      have h2 : insertAll (insertA e.1 e.2 acc) rest = insertAll acc (e :: rest) := by
        simp [insertAll]
      rw [h2]
      have h3 : n + 1 + rest.length = n + (e :: rest).length := by simp; omega
      rw [h3]

theorem loadSettingsLoop_entries (E : SettingsStore) (hwf : ∀ e ∈ E, entryWF e) :
    loadSettingsLoop (settingsEntriesBytes E) [] 0 = .ok (insertAll [] E, E.length) := by
  have := loadLoopGo_entries E (settingsEntriesBytes E).length [] 0 hwf (Nat.le_refl _)
  simpa [loadSettingsLoop] using this


theorem lookupA_insertA {α : Type} (k k2 : List Nat) (v : α) (m : List (List Nat × α)) :
    lookupA k (insertA k2 v m) = if k2 = k then some v else lookupA k m := by
  induction m with
  | nil => simp [insertA, lookupA]
  | cons e rest ih =>
    obtain ⟨a, b⟩ := e
    rw [insertA]
    by_cases hak : a = k2
    · rw [if_pos hak]
      subst hak
      by_cases hk : a = k
      · simp [lookupA, hk]
      · simp [lookupA, hk]
    · rw [if_neg hak]
      by_cases hk : a = k
      · subst hk
        have hne : k2 ≠ a := fun hh => hak hh.symm
        simp [lookupA, hne]
      · simp [lookupA, hk, ih]

theorem lookupA_not_mem {α : Type} (k : List Nat) (m : List (List Nat × α))
    (h : k ∉ m.map Prod.fst) : lookupA k m = Option.none := by
  induction m with
  | nil => rfl
  | cons e rest ih =>
    obtain ⟨a, b⟩ := e
    rw [List.map_cons, List.mem_cons] at h
    push_neg at h
    have hne : a ≠ k := fun hh => h.1 hh.symm
    simp [lookupA, hne, ih h.2]

theorem lookupA_mem_nodup {α : Type} {k : List Nat} {v : α} {m : List (List Nat × α)}
    (hnd : (m.map Prod.fst).Nodup) (hmem : (k, v) ∈ m) : lookupA k m = some v := by
  induction m with
  | nil => cases hmem
  | cons e rest ih =>
    obtain ⟨a, b⟩ := e
    rw [List.map_cons, List.nodup_cons] at hnd
    rcases List.mem_cons.1 hmem with h | h
    · cases h
      simp [lookupA]
    · have hkmem : k ∈ rest.map Prod.fst := List.mem_map.2 ⟨(k, v), h, rfl⟩
      have hne : a ≠ k := fun hh => hnd.1 (hh ▸ hkmem)
      simp [lookupA, hne, ih hnd.2 h]

theorem insertAll_cons {α : Type} (acc : List (List Nat × α)) (e : List Nat × α)
    (rest : List (List Nat × α)) :
    insertAll acc (e :: rest) = insertAll (insertA e.1 e.2 acc) rest := by
  simp [insertAll]

theorem lookupA_insertAll_not_mem {α : Type} {k : List Nat} {es acc : List (List Nat × α)}
    (h : k ∉ es.map Prod.fst) : lookupA k (insertAll acc es) = lookupA k acc := by
  induction es generalizing acc with
  | nil => rfl
  | cons e rest ih =>
    rw [List.map_cons, List.mem_cons] at h
    push_neg at h
    rw [insertAll_cons, ih h.2, lookupA_insertA, if_neg (fun hh => h.1 hh.symm)]

theorem lookupA_insertAll_mem_nodup {α : Type} {k : List Nat} {v : α}
    {es : List (List Nat × α)} (acc : List (List Nat × α))
    (hnd : (es.map Prod.fst).Nodup) (hmem : (k, v) ∈ es) :
    lookupA k (insertAll acc es) = some v := by
  induction es generalizing acc with
  | nil => cases hmem
  | cons e rest ih =>
    rw [List.map_cons, List.nodup_cons] at hnd
    rw [insertAll_cons]
    rcases List.mem_cons.1 hmem with h | h
    · cases h
      rw [lookupA_insertAll_not_mem hnd.1, lookupA_insertA, if_pos rfl]
    · exact ih _ hnd.2 h

theorem lookupA_insertAll_nil_nodup {α : Type} {es : List (List Nat × α)}
    (hnd : (es.map Prod.fst).Nodup) (k : List Nat) :
    lookupA k (insertAll [] es) = lookupA k es := by
  by_cases hmem : k ∈ es.map Prod.fst
  · obtain ⟨x, hx, hxk⟩ := List.mem_map.1 hmem
    obtain ⟨x1, x2⟩ := x
    cases hxk
    rw [lookupA_insertAll_mem_nodup [] hnd hx, lookupA_mem_nodup hnd hx]
  · rw [lookupA_insertAll_not_mem hmem, lookupA_not_mem _ _ hmem]
    rfl

theorem lookupA_insertAll_foldl {α : Type} :
    ∀ (es acc : List (List Nat × α)) (k : List Nat),
      lookupA k (insertAll acc es)
        = es.foldl (fun o e => if e.1 = k then some e.2 else o) (lookupA k acc) := by
  intro es
  induction es with
  | nil => intro acc k; rfl
  | cons e rest ih =>
    intro acc k
    rw [insertAll_cons, ih, List.foldl_cons, lookupA_insertA]


theorem flzRaw_flzCompress (c : List Nat) (h : c.length < 2 ^ 64) :
    flzRaw (flzCompress c) = some c := by
  match c with
  | [] => rfl
  | z :: t =>
    rw [flzCompress]
    by_cases hrun : 11 ≤ (z :: t).length ∧ z :: t = List.replicate (z :: t).length z
    · rw [if_pos hrun]
      have hcomb := beCombine_beBytes 8 (t.length + 1) (by simpa using h)
      simp [flzRaw, beBytes_length, hcomb]
      rw [show t.length + 1 = (z :: t).length from rfl]
      exact hrun.2.symm
    · rw [if_neg hrun]
      simp [flzRaw]

/-- Round trip of the compression envelope, shared by the store round trip
and the envelope claims: it holds whenever the input is at least the
compressor's 16-byte minimum (so no padding happens), or the compressed form
of the padded input is no smaller than the input (so the verbatim fallback
is taken). -/
theorem envelope_roundtrip_aux (b : List Nat) (hsz : b.length < 2 ^ 32)
    (hok : 16 ≤ b.length ∨ b.length ≤ (flzCompress (padTo16 b)).length) :
    decompress_file (compress_file b) (compress_file b).length = .ok b := by
  simp only [compress_file]
  by_cases hv : b.length ≤ (flzCompress (padTo16 b)).length
  · rw [if_pos hv]
    have h1 : readLeNat 4 (leBytes 4 b.length ++ (leBytes 4 b.length ++ b))
        = .ok (b.length, leBytes 4 b.length ++ b) := readLeNat_leBytes 4 b.length _ hsz
    have h2 := readLeNat_leBytes 4 b.length b hsz
    have h3 : readBytesE b.length b = .ok (b, []) := by
      simpa using readBytesE_exact b ([] : List Nat)
    have hlen : (leBytes 4 b.length ++ (leBytes 4 b.length ++ b)).length = 8 + b.length := by
      simp [leBytes_length]
      omega
    unfold decompress_file
    simp only [List.append_assoc]
    simp only [h1, hlen]
    rw [if_neg (show ¬ (b.length + 8 ≠ 8 + b.length) by omega)]
    simp only [h2, h3]
    rw [if_neg (show ¬ (b.length ≠ b.length) by omega)]
  · rw [if_neg hv]
    have h16 : 16 ≤ b.length := by
      rcases hok with h | h
      · exact h
      · omega
    have hpad : padTo16 b = b := by
      rw [padTo16, if_neg (by omega)]
    rw [hpad] at hv
    rw [hpad]
    have hraw : flzRaw (flzCompress b) = some b := flzRaw_flzCompress b (by omega)
    have hclen : (flzCompress b).length < 2 ^ 32 := by omega
    have h1 : readLeNat 4 (leBytes 4 (flzCompress b).length
          ++ (leBytes 4 b.length ++ flzCompress b))
        = .ok ((flzCompress b).length, leBytes 4 b.length ++ flzCompress b) :=
      readLeNat_leBytes 4 _ _ hclen
    have h2 := readLeNat_leBytes 4 b.length (flzCompress b) hsz
    have h3 : readBytesE (flzCompress b).length (flzCompress b) = .ok (flzCompress b, []) := by
      simpa using readBytesE_exact (flzCompress b) ([] : List Nat)
    have hlen : (leBytes 4 (flzCompress b).length
        ++ (leBytes 4 b.length ++ flzCompress b)).length = 8 + (flzCompress b).length := by
      simp [leBytes_length]
      omega
    unfold decompress_file
    simp only [List.append_assoc]
    simp only [h1, hlen]
    rw [if_neg (show ¬ ((flzCompress b).length + 8 ≠ 8 + (flzCompress b).length) by omega)]
    simp only [h2, h3]
    rw [if_pos (show (flzCompress b).length ≠ b.length by omega)]
    simp only [flzDecompress, hraw]
    rw [if_neg (by omega)]
    simp

theorem savePayload_length_large (s : SettingsStore) (hne : s ≠ []) :
    16 ≤ (ModSettings.savePayload s).length := by
  match s with
  | [] => exact absurd rfl hne
  | e :: rest =>
    have h1 := modSetting_save_length ⟨e.1, e.2⟩
    have h2 : settingsEntriesBytes (e :: rest)
        = ModSetting.save ⟨e.1, e.2⟩ ++ settingsEntriesBytes rest := by
      simp [settingsEntriesBytes, concatBytes_cons]
    rw [ModSettings.savePayload, h2]
    simp [beBytes_length]
    omega

theorem loadPayload_savePayload (s : SettingsStore) (hwf : ∀ e ∈ s, entryWF e)
    (hcount : s.length < 2 ^ 64) :
    ModSettings.loadPayload (ModSettings.savePayload s) = .ok (insertAll [] s) := by
  have h1 := readBeNat_beBytes 8 s.length (settingsEntriesBytes s) hcount
  rw [ModSettings.loadPayload, ModSettings.savePayload]
  simp only [h1]
  simp only [loadSettingsLoop_entries s hwf]
  rw [if_neg (show ¬ (s.length ≠ s.length) by omega)]


theorem toSetStep_gcons_setting (name : List Nat) (p : ModSettingPair) (i : Bool)
    (rest : ModSettingsNode) (acc : Finset (List Nat)) :
    toSetStep (.gcons name (.setting p i) rest) acc
      = toSetStep rest ((acc ∪ ∅).image (fun e => name ++ e)) := rfl

theorem toSetStep_gcons_gnil (name : List Nat) (rest : ModSettingsNode)
    (acc : Finset (List Nat)) :
    toSetStep (.gcons name .gnil rest) acc
      = toSetStep rest
          ((acc ∪ (∅ : Finset (List Nat)).image (fun e => 46 :: e)).image
            (fun e => name ++ e)) := rfl

theorem toSetStep_gcons_gcons (name n2 : List Nat) (c2 r2 rest : ModSettingsNode)
    (acc : Finset (List Nat)) :
    toSetStep (.gcons name (.gcons n2 c2 r2) rest) acc
      = toSetStep rest
          ((acc ∪ (toSetStep (.gcons n2 c2 r2) ∅).image (fun e => 46 :: e)).image
            (fun e => name ++ e)) := rfl

theorem toSetStep_acc_empty : ∀ g : ModSettingsNode, toSetStep g ∅ = ∅ := by
  intro g
  induction g with
  | setting pair incl => rfl
  | gnil => rfl
  | gcons name child rest ihc ihr =>
    cases child with
    | setting pair incl =>
      rw [toSetStep_gcons_setting]
      simpa using ihr
    | gnil =>
      rw [toSetStep_gcons_gnil]
      simpa using ihr
    | gcons n2 c2 r2 =>
      rw [toSetStep_gcons_gcons, ihc]
      simpa using ihr

theorem groupToSet_empty (g : ModSettingsNode) : groupToSet g = ∅ :=
  toSetStep_acc_empty g

theorem allInc_gcons_setting (name : List Nat) (p : ModSettingPair) (i : Bool)
    (rest : ModSettingsNode) (acc : Bool) :
    allIncludedStep (.gcons name (.setting p i) rest) acc
      = allIncludedStep rest (acc && i) := rfl

theorem allInc_gcons_gnil (name : List Nat) (rest : ModSettingsNode) (acc : Bool) :
    allIncludedStep (.gcons name .gnil rest) acc
      = allIncludedStep rest (acc && true) := rfl

theorem allInc_gcons_gcons (name n2 : List Nat) (c2 r2 rest : ModSettingsNode) (acc : Bool) :
    allIncludedStep (.gcons name (.gcons n2 c2 r2) rest) acc
      = allIncludedStep rest (acc && allIncludedStep (.gcons n2 c2 r2) true) := rfl

theorem allIncludedStep_includeAll :
    ∀ (g : ModSettingsNode) (acc : Bool), allIncludedStep (includeAll true g) acc = acc := by
  intro g
  induction g with
  | setting pair incl => intro acc; rfl
  | gnil => intro acc; rfl
  | gcons name child rest ihc ihr =>
    intro acc
    cases child with
    | setting pair incl =>
      rw [show includeAll true (ModSettingsNode.gcons name (.setting pair incl) rest)
        = .gcons name (.setting pair true) (includeAll true rest) from rfl]
      rw [allInc_gcons_setting, Bool.and_true]
      exact ihr acc
    | gnil =>
      rw [show includeAll true (ModSettingsNode.gcons name .gnil rest)
        = .gcons name .gnil (includeAll true rest) from rfl]
      rw [allInc_gcons_gnil, Bool.and_true]
      exact ihr acc
    | gcons n2 c2 r2 =>
      rw [show includeAll true (ModSettingsNode.gcons name (.gcons n2 c2 r2) rest)
        = .gcons name (.gcons n2 (includeAll true c2) (includeAll true r2))
            (includeAll true rest) from rfl]
      rw [allInc_gcons_gcons]
      rw [show ModSettingsNode.gcons n2 (includeAll true c2) (includeAll true r2)
        = includeAll true (ModSettingsNode.gcons n2 c2 r2) from rfl]
      rw [ihc true, Bool.and_true]
      exact ihr acc

theorem leafFlags_includeAll :
    ∀ (g : ModSettingsNode) (b : Bool), b ∈ leafFlags (includeAll true g) → b = true := by
  intro g
  induction g with
  | setting pair incl =>
    intro b hb
    simp [includeAll, leafFlags] at hb
    exact hb
  | gnil => intro b hb; simp [includeAll, leafFlags] at hb
  | gcons name child rest ihc ihr =>
    intro b hb
    rw [show includeAll true (ModSettingsNode.gcons name child rest)
      = .gcons name (includeAll true child) (includeAll true rest) from rfl] at hb
    rw [leafFlags, List.mem_append] at hb
    rcases hb with h | h
    · exact ihc b h
    · exact ihr b h


/-- C1: the spec says `to_inclusion_set` (`ModSettingsGroup::to_set`) returns
exactly the dotted keys of every `include = true` leaf.  The code never reads
the `include` flag and never contributes a leaf's own name: on a hierarchy
whose single leaf `"a"` is marked `include = true` it returns the empty set
instead of `{"a"}` (indeed `to_set` returns the empty set on every input). -/
theorem to_set_drops_included_leaf : groupToSet inclLeafGroup = ∅ :=
  groupToSet_empty inclLeafGroup

/-- C2: `ModPack::save` declares `self.settings.values.len()` as the settings
count but then writes only the entries whose key is in `include.to_set()`.
On a pack with one setting it declares `1` yet writes `0` entries, so its own
loader fails with a short read after the count field. -/
theorem pack_save_declared_count_mismatch :
    packC2.settings.length = 1
    ∧ (packC2.settings.filter (fun e => decide (e.1 ∈ groupToSet inclGroupC2))).length = 0
    ∧ ModPack.load [] (ModPack.save packC2 inclGroupC2) = .error .shortRead := by
  refine ⟨rfl, by decide, by decide⟩

/-- C3: saving a settings store and loading the saved bytes (passing the
output's length as the file size) reproduces the key-to-pair mapping
exactly, for every store of well-formed non-NaN entries whose payload fits
the `u32` size header. -/
theorem settings_store_roundtrip (s : SettingsStore)
    (hnd : (s.map Prod.fst).Nodup)
    (hwf : ∀ e ∈ s, entryWF e)
    (hnan : ∀ e ∈ s, pairNonNaN e.2)
    (hcount : s.length < 2 ^ 64)
    (hsz : (ModSettings.savePayload s).length < 2 ^ 32) :
    ∃ out, ModSettings.load (ModSettings.save s) (ModSettings.save s).length = .ok out
      ∧ ∀ k, lookupA k out = lookupA k s := by
  have hok : 16 ≤ (ModSettings.savePayload s).length
      ∨ (ModSettings.savePayload s).length
        ≤ (flzCompress (padTo16 (ModSettings.savePayload s))).length := by
    cases s with
    | nil => right; decide
    | cons e rest => left; exact savePayload_length_large _ (by simp)
  have henv := envelope_roundtrip_aux (ModSettings.savePayload s) hsz hok
  refine ⟨insertAll [] s, ?_, fun k => lookupA_insertAll_nil_nodup hnd k⟩
  rw [ModSettings.load]
  simp only [ModSettings.save]
  simp only [henv]
  exact loadPayload_savePayload s hwf hcount

theorem settings_store_roundtrip_witness :
    ((([([107], ⟨.bool true, .string [97]⟩)] : SettingsStore).map Prod.fst).Nodup)
    ∧ ∃ out,
        ModSettings.load (ModSettings.save [([107], ⟨.bool true, .string [97]⟩)])
            (ModSettings.save [([107], ⟨.bool true, .string [97]⟩)]).length = .ok out
        ∧ ∀ k, lookupA k out = lookupA k [([107], ⟨.bool true, .string [97]⟩)] :=
  ⟨by decide,
    settings_store_roundtrip [([107], ⟨.bool true, .string [97]⟩)]
      (by decide) (by decide) (by decide) (by decide) (by decide)⟩

/-- C4 counterexample: the claim asserts `decompress(compress(B)) = B` for
every byte string, including strings shorter than the compressor's 16-byte
minimum block.  For `B` = twelve zero bytes, `compress_file` pads to 16
bytes, the padded block compresses below 12 bytes, and the reader then asks
the codec to decompress a block whose content is 16 bytes into a 12-byte
buffer, which fails. -/
theorem envelope_roundtrip_short_input_fails :
    decompress_file (compress_file (List.replicate 12 0))
        (compress_file (List.replicate 12 0)).length
      = .error .decompressionFailed := by decide

/-- C4 amended: the envelope round trip holds for every byte string of
length at least 16 (no padding happens), and for shorter strings whenever
compressing the padded block does not beat the original length (the
verbatim fallback); short inputs whose padded block compresses below their
own length fail as shown by the counterexample. -/
theorem envelope_roundtrip_amended (b : List Nat)
    (hbytes : ∀ x ∈ b, x < 256) (hsz : b.length < 2 ^ 32)
    (hok : 16 ≤ b.length ∨ b.length ≤ (flzCompress (padTo16 b)).length) :
    decompress_file (compress_file b) (compress_file b).length = .ok b :=
  envelope_roundtrip_aux b hsz hok

theorem envelope_roundtrip_amended_witness :
    decompress_file (compress_file [3, 1, 4, 1, 5, 9, 2, 6, 5, 3, 5, 8, 9, 7, 9, 3, 2])
        (compress_file [3, 1, 4, 1, 5, 9, 2, 6, 5, 3, 5, 8, 9, 7, 9, 3, 2]).length
      = .ok [3, 1, 4, 1, 5, 9, 2, 6, 5, 3, 5, 8, 9, 7, 9, 3, 2] :=
  envelope_roundtrip_amended [3, 1, 4, 1, 5, 9, 2, 6, 5, 3, 5, 8, 9, 7, 9, 3, 2]
    (by decide) (by decide) (by decide)

/-- C7: a store save with `N` entries declares exactly `N` in its 8-byte
big-endian count header, and the loader fails with the entry-count-mismatch
error whenever the declared count differs from the number of entries parsed
from the exhausted payload. -/
theorem store_count_header_strict :
    (∀ s : SettingsStore, s.length < 2 ^ 64 →
        readBeNat 8 (ModSettings.savePayload s) = .ok (s.length, settingsEntriesBytes s))
    ∧ (∀ (n : Nat) (bs : List Nat) m (k : Nat), n < 2 ^ 64 →
        loadSettingsLoop bs [] 0 = .ok (m, k) → n ≠ k →
        ModSettings.loadPayload (beBytes 8 n ++ bs) = .error .entryCountMismatch) := by
  constructor
  · intro s hs
    rw [ModSettings.savePayload]
    exact readBeNat_beBytes 8 s.length _ hs
  · intro n bs m k hn hloop hne
    rw [ModSettings.loadPayload]
    simp only [readBeNat_beBytes 8 n bs hn]
    simp only [hloop]
    rw [if_pos (show k ≠ n from fun hh => hne hh.symm)]

theorem store_count_header_strict_witness :
    readBeNat 8 (ModSettings.savePayload [([107], pairNone)])
        = .ok (1, settingsEntriesBytes [([107], pairNone)])
    ∧ ModSettings.loadPayload (beBytes 8 5 ++ []) = .error .entryCountMismatch :=
  ⟨store_count_header_strict.1 [([107], pairNone)] (by decide),
    store_count_header_strict.2 5 [] [] 0 (by decide) (by decide) (by decide)⟩

/-- C8: `ModPack::load` of a file whose 8-byte little-endian version field
holds any nonzero value fails with the unsupported-schema-version error,
whatever bytes follow the version field (no name or mod-list bytes are
parsed). -/
theorem pack_load_rejects_future_schema (file_name : List Nat) (v : Nat) (rest : List Nat)
    (hv : v < 2 ^ 64) (hnz : v ≠ 0) :
    ModPack.load file_name (leBytes 8 v ++ rest) = .error .unsupportedSchemaVersion := by
  rw [ModPack.load]
  simp only [readLeNat_leBytes 8 v rest hv]
  rw [if_neg hnz]

theorem pack_load_rejects_future_schema_witness :
    ModPack.load [] (leBytes 8 1 ++ [104, 105]) = .error .unsupportedSchemaVersion :=
  pack_load_rejects_future_schema [] 1 [104, 105] (by decide) (by decide)

/-- C9: after `include_all(node, true)` (the spec's `toggle_subtree`) every
descendant leaf's `include` flag is `true` and `all_included(node)` returns
`true`; on an empty group `all_included` is vacuously `true`. -/
theorem include_all_marks_every_leaf :
    (∀ g : ModSettingsNode,
        (∀ b ∈ leafFlags (includeAll true g), b = true)
        ∧ groupAllIncluded (includeAll true g) = true)
    ∧ groupAllIncluded ModSettingsNode.gnil = true := by
  constructor
  · intro g
    exact ⟨fun b hb => leafFlags_includeAll g b hb, allIncludedStep_includeAll g true⟩
  · rfl

theorem include_all_marks_every_leaf_witness :
    true = true
    ∧ groupAllIncluded
        (includeAll true (ModSettingsNode.gcons [98] (.setting pairNone false) .gnil)) = true :=
  ⟨(include_all_marks_every_leaf.1
      (ModSettingsNode.gcons [98] (.setting pairNone false) .gnil)).1 true (by decide),
    (include_all_marks_every_leaf.1
      (ModSettingsNode.gcons [98] (.setting pairNone false) .gnil)).2⟩

/-- C10: the store loader counts every parsed entry toward the declared
count even when keys repeat (success exactly when the declared count equals
the number of entries parsed, not the number of distinct keys), and the
resulting map sends a duplicated key to the last-parsed pair (the fold keeps
the rightmost binding). -/
theorem load_counts_duplicate_entries (E : SettingsStore) (n : Nat)
    (hwf : ∀ e ∈ E, entryWF e) (hn : n < 2 ^ 64) :
    (ModSettings.loadPayload (beBytes 8 n ++ settingsEntriesBytes E)
        = if n = E.length then .ok (insertAll [] E) else .error .entryCountMismatch)
    ∧ ∀ k, lookupA k (insertAll [] E)
        = E.foldl (fun o e => if e.1 = k then some e.2 else o) Option.none := by
  constructor
  · rw [ModSettings.loadPayload]
    simp only [readBeNat_beBytes 8 n _ hn]
    simp only [loadSettingsLoop_entries E hwf]
    by_cases h : n = E.length
    · rw [if_pos h, if_neg (show ¬ (E.length ≠ n) by omega)]
    · rw [if_neg h, if_pos (show E.length ≠ n from fun hh => h hh.symm)]
  · intro k
    have := lookupA_insertAll_foldl E [] k
    simpa [lookupA] using this

theorem load_counts_duplicate_entries_witness :
    (ModSettings.loadPayload
        (beBytes 8 2 ++ settingsEntriesBytes [([107], ⟨.bool true, .none⟩), ([107], pairNone)])
      = if 2 = ([([107], ⟨.bool true, .none⟩), ([107], pairNone)] : SettingsStore).length
        then .ok (insertAll [] [([107], ⟨.bool true, .none⟩), ([107], pairNone)])
        else .error .entryCountMismatch)
    ∧ ∀ k, lookupA k (insertAll [] [([107], ⟨.bool true, .none⟩), ([107], pairNone)])
        = ([([107], ⟨.bool true, .none⟩), ([107], pairNone)] : SettingsStore).foldl
            (fun o e => if e.1 = k then some e.2 else o) Option.none :=
  load_counts_duplicate_entries [([107], ⟨.bool true, .none⟩), ([107], pairNone)] 2
    (by decide) (by decide)


theorem set_getq_ne {α : Type} :
    ∀ (l : List α) (i j : Nat) (a : α), i ≠ j → (l.set i a)[j]? = l[j]? := by
  intro l
  induction l with
  | nil => intro i j a h; simp
  | cons x xs ih =>
    intro i j a h
    match i, j with
    | 0, 0 => exact absurd rfl h
    | 0, j2 + 1 => simp [List.set]
    | i2 + 1, 0 => simp [List.set]
    | i2 + 1, j2 + 1 =>
      simp only [List.set, List.getElem?_cons_succ]
      exact ih i2 j2 a (fun hh => h (by rw [hh]))

theorem set_getq_eq {α : Type} :
    ∀ (l : List α) (i : Nat) (a : α), i < l.length → (l.set i a)[i]? = some a := by
  intro l
  induction l with
  | nil => intro i a h; simp at h
  | cons x xs ih =>
    intro i a h
    match i with
    | 0 => simp [List.set]
    | i2 + 1 =>
      simp only [List.set, List.getElem?_cons_succ]
      exact ih i2 a (by simpa using h)

theorem lookupA_buildEnabledMap_isSome :
    ∀ (mods : List (List Nat)) (i : Nat) acc (k : List Nat),
      (lookupA k (buildEnabledMap mods i acc)).isSome
        ↔ k ∈ mods ∨ (lookupA k acc).isSome := by
  intro mods
  induction mods with
  | nil => intro i acc k; simp [buildEnabledMap]
  | cons m rest ih =>
    intro i acc k
    rw [buildEnabledMap, ih, lookupA_insertA]
    by_cases hmk : m = k
    · simp [hmk]
    · have : ¬ k = m := fun hh => hmk hh.symm
      simp [hmk, this]

theorem lookupA_buildEnabledMap_nodup :
    ∀ (mods : List (List Nat)) (i : Nat) acc (k : List Nat), mods.Nodup →
      lookupA k (buildEnabledMap mods i acc)
        = if k ∈ mods then some (i + idxOfKey k mods) else lookupA k acc := by
  intro mods
  induction mods with
  | nil => intro i acc k hnd; simp [buildEnabledMap]
  | cons m rest ih =>
    intro i acc k hnd
    rw [List.nodup_cons] at hnd
    rw [buildEnabledMap, ih (i + 1) (insertA m i acc) k hnd.2]
    by_cases hk : k ∈ rest
    · have hmk : m ≠ k := fun hh => hnd.1 (hh ▸ hk)
      rw [if_pos hk, if_pos (List.mem_cons.2 (Or.inr hk))]
      rw [idxOfKey, if_neg hmk]
      exact congrArg some (by omega)
    · rw [if_neg hk, lookupA_insertA]
      by_cases hmk : m = k
      · cases hmk
        rw [if_pos rfl, if_pos (List.mem_cons.2 (Or.inl rfl))]
        rw [idxOfKey, if_pos rfl]
        simp
      · rw [if_neg hmk, if_neg (by
          intro hh
          rcases List.mem_cons.1 hh with h | h
          · exact hmk h.symm
          · exact hk h)]

theorem flagUpdate_id (pm : List (List Nat × Nat)) (m : Mod) : (flagUpdate pm m).id = m.id := by
  rw [flagUpdate]
  cases hk : m.kind with
  | normal nm => cases hl : lookupA m.id pm <;> rfl
  | translation => rfl
  | gamemode => rfl

theorem flagUpdate_normal (pm : List (List Nat × Nat)) (m : Mod) (nm : NormalMod)
    (h : (flagUpdate pm m).kind = ModKind.normal nm) :
    nm.enabled = true ↔ (lookupA m.id pm).isSome := by
  rw [flagUpdate] at h
  cases hk : m.kind with
  | normal nm0 =>
    rw [hk] at h
    cases hl : lookupA m.id pm with
    | none =>
      rw [hl] at h
      simp at h
      rw [← h]
      simp
    | some v =>
      rw [hl] at h
      simp at h
      rw [← h]
      simp
  | translation =>
    rw [hk] at h
    cases hl : lookupA m.id pm <;> rw [hl] at h <;> simp at h <;>
      rw [hk] at h <;> simp at h
  | gamemode =>
    rw [hk] at h
    cases hl : lookupA m.id pm <;> rw [hl] at h <;> simp at h <;>
      rw [hk] at h <;> simp at h

theorem isEnabled_flagUpdate_normal (pm : List (List Nat × Nat)) (m : Mod) (nm : NormalMod)
    (hk : m.kind = ModKind.normal nm) :
    (flagUpdate pm m).isEnabled = (lookupA m.id pm).isSome := by
  rw [flagUpdate, hk]
  cases hl : lookupA m.id pm <;> simp [Mod.isEnabled]

theorem isEnabled_flagUpdate_other (pm : List (List Nat × Nat)) (m : Mod)
    (hk : ∀ nm, m.kind ≠ ModKind.normal nm) :
    (flagUpdate pm m).isEnabled = false := by
  rw [flagUpdate]
  cases hkk : m.kind with
  | normal nm => exact absurd hkk (hk nm)
  | translation => simp [Mod.isEnabled, hkk]
  | gamemode => simp [Mod.isEnabled, hkk]


theorem pass1_nil (pm : List (List Nat × Nat)) (i : Nat) : pass1 pm [] i = ([], [], []) := rfl

theorem pass1_cons_normal_some (pm : List (List Nat × Nat)) (m : Mod) (rest : List Mod)
    (i : Nat) (nm : NormalMod) (v : Nat)
    (hk : m.kind = ModKind.normal nm) (hl : lookupA m.id pm = some v) :
    pass1 pm (m :: rest) i =
      ({ m with kind := ModKind.normal ⟨true⟩ } :: (pass1 pm rest (i + 1)).1,
       ({ m with kind := ModKind.normal ⟨true⟩ }, v) :: (pass1 pm rest (i + 1)).2.1,
       i :: (pass1 pm rest (i + 1)).2.2) := by
  simp only [pass1]
  rw [hk, hl]

theorem pass1_cons_normal_none (pm : List (List Nat × Nat)) (m : Mod) (rest : List Mod)
    (i : Nat) (nm : NormalMod)
    (hk : m.kind = ModKind.normal nm) (hl : lookupA m.id pm = Option.none) :
    pass1 pm (m :: rest) i =
      ({ m with kind := ModKind.normal ⟨false⟩ } :: (pass1 pm rest (i + 1)).1,
       (pass1 pm rest (i + 1)).2.1,
       (pass1 pm rest (i + 1)).2.2) := by
  simp only [pass1]
  rw [hk, hl]

theorem pass1_cons_translation (pm : List (List Nat × Nat)) (m : Mod) (rest : List Mod)
    (i : Nat) (hk : m.kind = ModKind.translation) :
    pass1 pm (m :: rest) i =
      (m :: (pass1 pm rest (i + 1)).1, (pass1 pm rest (i + 1)).2.1,
       (pass1 pm rest (i + 1)).2.2) := by
  simp only [pass1]
  rw [hk]

theorem pass1_cons_gamemode (pm : List (List Nat × Nat)) (m : Mod) (rest : List Mod)
    (i : Nat) (hk : m.kind = ModKind.gamemode) :
    pass1 pm (m :: rest) i =
      (m :: (pass1 pm rest (i + 1)).1, (pass1 pm rest (i + 1)).2.1,
       (pass1 pm rest (i + 1)).2.2) := by
  simp only [pass1]
  rw [hk]

theorem flagUpdate_eq_normal_some (pm : List (List Nat × Nat)) (m : Mod) (nm : NormalMod)
    (v : Nat) (hk : m.kind = ModKind.normal nm) (hl : lookupA m.id pm = some v) :
    flagUpdate pm m = { m with kind := ModKind.normal ⟨true⟩ } := by
  rw [flagUpdate, hk, hl]

theorem flagUpdate_eq_normal_none (pm : List (List Nat × Nat)) (m : Mod) (nm : NormalMod)
    (hk : m.kind = ModKind.normal nm) (hl : lookupA m.id pm = Option.none) :
    flagUpdate pm m = { m with kind := ModKind.normal ⟨false⟩ } := by
  rw [flagUpdate, hk, hl]

theorem flagUpdate_eq_translation (pm : List (List Nat × Nat)) (m : Mod)
    (hk : m.kind = ModKind.translation) : flagUpdate pm m = m := by
  rw [flagUpdate, hk]

theorem flagUpdate_eq_gamemode (pm : List (List Nat × Nat)) (m : Mod)
    (hk : m.kind = ModKind.gamemode) : flagUpdate pm m = m := by
  rw [flagUpdate, hk]

theorem pass1_shift (pm : List (List Nat × Nat)) :
    ∀ (l : List Mod) (i : Nat),
      pass1 pm l i = ((pass1 pm l 0).1, (pass1 pm l 0).2.1,
        (pass1 pm l 0).2.2.map (· + i)) := by
  intro l
  induction l with
  | nil => intro i; simp [pass1_nil]
  | cons m rest ih =>
    intro i
    have hmap : ((pass1 pm rest 0).2.2.map (· + 1)).map (· + i)
        = (pass1 pm rest 0).2.2.map (· + (i + 1)) := by
      rw [List.map_map]
      apply List.map_congr_left
      intro a ha
      simp
      omega
    cases hk : m.kind with
    | normal nm =>
      cases hl : lookupA m.id pm with
      | none =>
        rw [pass1_cons_normal_none pm m rest i nm hk hl,
          pass1_cons_normal_none pm m rest 0 nm hk hl]
        dsimp only
        rw [ih (i + 1), ih 1]
        dsimp only
        simp only [Prod.mk.injEq]
        refine ⟨trivial, trivial, ?_⟩
        rw [hmap]
      | some v =>
        rw [pass1_cons_normal_some pm m rest i nm v hk hl,
          pass1_cons_normal_some pm m rest 0 nm v hk hl]
        dsimp only
        rw [ih (i + 1), ih 1]
        dsimp only
        simp only [Prod.mk.injEq, List.map_cons]
        refine ⟨trivial, trivial, ?_⟩
        rw [hmap]
        simp
    | translation =>
      rw [pass1_cons_translation pm m rest i hk,
        pass1_cons_translation pm m rest 0 hk]
      dsimp only
      rw [ih (i + 1), ih 1]
      dsimp only
      simp only [Prod.mk.injEq]
      refine ⟨trivial, trivial, ?_⟩
      rw [hmap]
    | gamemode =>
      rw [pass1_cons_gamemode pm m rest i hk,
        pass1_cons_gamemode pm m rest 0 hk]
      dsimp only
      rw [ih (i + 1), ih 1]
      dsimp only
      simp only [Prod.mk.injEq]
      refine ⟨trivial, trivial, ?_⟩
      rw [hmap]


theorem succ_mem_map_succ (l : List Nat) (j : Nat) : j + 1 ∈ l.map (· + 1) ↔ j ∈ l := by
  simp

theorem zero_mem_map_succ (l : List Nat) : (0 ∈ l.map (· + 1)) ↔ False := by
  simp

theorem pass1_spec (pm : List (List Nat × Nat)) :
    ∀ l : List Mod,
      (pass1 pm l 0).1 = l.map (flagUpdate pm)
      ∧ ((pass1 pm l 0).2.2).Pairwise (· < ·)
      ∧ (∀ j ∈ (pass1 pm l 0).2.2, j < l.length)
      ∧ List.Forall₂
          (fun (pr : Mod × Nat) (p : Nat) =>
            (l.map (flagUpdate pm))[p]? = some pr.1
            ∧ lookupA pr.1.id pm = some pr.2
            ∧ pr.1.isEnabled = true)
          (pass1 pm l 0).2.1 (pass1 pm l 0).2.2
      ∧ (∀ j, j ∈ (pass1 pm l 0).2.2
          ↔ ∃ m, (l.map (flagUpdate pm))[j]? = some m ∧ m.isEnabled = true) := by
  intro l
  induction l with
  | nil =>
    refine ⟨rfl, ?_, ?_, ?_, ?_⟩ <;> simp [pass1_nil]
  | cons m rest ih =>
    obtain ⟨ih1, ih2, ih3, ih4, ih5⟩ := ih
    cases hk : m.kind with
    | normal nm =>
      cases hl : lookupA m.id pm with
      | some v =>
        have hF := flagUpdate_eq_normal_some pm m nm v hk hl
        rw [pass1_cons_normal_some pm m rest 0 nm v hk hl, pass1_shift pm rest 1]
        dsimp only
        refine ⟨?_, ?_, ?_, ?_, ?_⟩
        · rw [List.map_cons, ih1, hF]
        · rw [List.pairwise_cons]
          refine ⟨?_, ?_⟩
          · intro x hx
            obtain ⟨a, _, hax⟩ := List.mem_map.1 hx
            omega
          · rw [List.pairwise_map]
            exact ih2.imp (by intro a b hab; omega)
        · intro j hj
          rcases List.mem_cons.1 hj with h | h
          · simp [h]
          · obtain ⟨a, ha, hax⟩ := List.mem_map.1 h
            have := ih3 a ha
            simp
            omega
        · rw [List.forall₂_cons]
          refine ⟨⟨?_, ?_, ?_⟩, ?_⟩
          · simp [hF]
          · exact hl
          · rfl
          · rw [List.forall₂_map_right_iff]
            refine ih4.imp ?_
            intro pr p hrel
            refine ⟨?_, hrel.2.1, hrel.2.2⟩
            simpa using hrel.1
        · intro j
          match j with
          | 0 =>
            simp only [List.mem_cons, List.map_cons, List.getElem?_cons_zero]
            constructor
            · intro _
              exact ⟨flagUpdate pm m, rfl, by rw [hF]; rfl⟩
            · intro _
              exact Or.inl trivial
          | j2 + 1 =>
            rw [List.mem_cons]
            have h1 : ¬ (j2 + 1 = 0) := by omega
            rw [show ((m :: rest).map (flagUpdate pm))[j2 + 1]?
              = (rest.map (flagUpdate pm))[j2]? by simp]
            rw [succ_mem_map_succ]
            simp only [h1, false_or]
            exact ih5 j2
      | none =>
        have hF := flagUpdate_eq_normal_none pm m nm hk hl
        rw [pass1_cons_normal_none pm m rest 0 nm hk hl, pass1_shift pm rest 1]
        dsimp only
        refine ⟨?_, ?_, ?_, ?_, ?_⟩
        · rw [List.map_cons, ih1, hF]
        · rw [List.pairwise_map]
          exact ih2.imp (by intro a b hab; omega)
        · intro j hj
          obtain ⟨a, ha, hax⟩ := List.mem_map.1 hj
          have := ih3 a ha
          simp
          omega
        · rw [List.forall₂_map_right_iff]
          refine ih4.imp ?_
          intro pr p hrel
          refine ⟨?_, hrel.2.1, hrel.2.2⟩
          simpa using hrel.1
        · intro j
          match j with
          | 0 =>
            rw [zero_mem_map_succ]
            simp only [List.map_cons, List.getElem?_cons_zero, false_iff]
            intro ⟨m0, hm0, hen⟩
            rw [hF] at hm0
            cases hm0
            simp [Mod.isEnabled] at hen
          | j2 + 1 =>
            rw [succ_mem_map_succ]
            rw [show ((m :: rest).map (flagUpdate pm))[j2 + 1]?
              = (rest.map (flagUpdate pm))[j2]? by simp]
            exact ih5 j2
    | translation =>
      have hF := flagUpdate_eq_translation pm m hk
      rw [pass1_cons_translation pm m rest 0 hk, pass1_shift pm rest 1]
      dsimp only
      refine ⟨?_, ?_, ?_, ?_, ?_⟩
      · rw [List.map_cons, ih1, hF]
      · rw [List.pairwise_map]
        exact ih2.imp (by intro a b hab; omega)
      · intro j hj
        obtain ⟨a, ha, hax⟩ := List.mem_map.1 hj
        have := ih3 a ha
        simp
        omega
      · rw [List.forall₂_map_right_iff]
        refine ih4.imp ?_
        intro pr p hrel
        refine ⟨?_, hrel.2.1, hrel.2.2⟩
        simpa using hrel.1
      · intro j
        match j with
        | 0 =>
          rw [zero_mem_map_succ]
          simp only [List.map_cons, List.getElem?_cons_zero, false_iff]
          intro ⟨m0, hm0, hen⟩
          rw [hF] at hm0
          cases hm0
          simp [Mod.isEnabled, hk] at hen
        | j2 + 1 =>
          rw [succ_mem_map_succ]
          rw [show ((m :: rest).map (flagUpdate pm))[j2 + 1]?
            = (rest.map (flagUpdate pm))[j2]? by simp]
          exact ih5 j2
    | gamemode =>
      have hF := flagUpdate_eq_gamemode pm m hk
      rw [pass1_cons_gamemode pm m rest 0 hk, pass1_shift pm rest 1]
      dsimp only
      refine ⟨?_, ?_, ?_, ?_, ?_⟩
      · rw [List.map_cons, ih1, hF]
      · rw [List.pairwise_map]
        exact ih2.imp (by intro a b hab; omega)
      · intro j hj
        obtain ⟨a, ha, hax⟩ := List.mem_map.1 hj
        have := ih3 a ha
        simp
        omega
      · rw [List.forall₂_map_right_iff]
        refine ih4.imp ?_
        intro pr p hrel
        refine ⟨?_, hrel.2.1, hrel.2.2⟩
        simpa using hrel.1
      · intro j
        match j with
        | 0 =>
          rw [zero_mem_map_succ]
          simp only [List.map_cons, List.getElem?_cons_zero, false_iff]
          intro ⟨m0, hm0, hen⟩
          rw [hF] at hm0
          cases hm0
          simp [Mod.isEnabled, hk] at hen
        | j2 + 1 =>
          rw [succ_mem_map_succ]
          rw [show ((m :: rest).map (flagUpdate pm))[j2 + 1]?
            = (rest.map (flagUpdate pm))[j2]? by simp]
          exact ih5 j2


theorem scatterMods_nil_em (ms : List Mod) (ei : List Nat) : scatterMods ms [] ei = ms := rfl

theorem scatterMods_nil_ei (ms : List Mod) (x : Mod × Nat) (em : List (Mod × Nat)) :
    scatterMods ms (x :: em) [] = ms := rfl

theorem scatterMods_cons (ms : List Mod) (m : Mod) (v : Nat) (em : List (Mod × Nat))
    (i : Nat) (ei : List Nat) :
    scatterMods ms ((m, v) :: em) (i :: ei) = scatterMods (ms.set i m) em ei := rfl

theorem scatterMods_length :
    ∀ (em : List (Mod × Nat)) (ei : List Nat) (ms : List Mod),
      (scatterMods ms em ei).length = ms.length := by
  intro em
  induction em with
  | nil => intro ei ms; rfl
  | cons x em ih =>
    intro ei ms
    obtain ⟨m, v⟩ := x
    match ei with
    | [] => rfl
    | i :: ei2 =>
      rw [scatterMods_cons, ih ei2 (ms.set i m), List.length_set]

theorem scatterMods_getq_not_mem :
    ∀ (em : List (Mod × Nat)) (ei : List Nat) (ms : List Mod) (j : Nat),
      j ∉ ei → (scatterMods ms em ei)[j]? = ms[j]? := by
  intro em
  induction em with
  | nil => intro ei ms j hj; rfl
  | cons x em ih =>
    intro ei ms j hj
    obtain ⟨m, v⟩ := x
    match ei with
    | [] => rfl
    | i :: ei2 =>
      rw [List.mem_cons] at hj
      push_neg at hj
      rw [scatterMods_cons, ih ei2 (ms.set i m) j hj.2]
      exact set_getq_ne ms i j m (fun hh => hj.1 hh.symm)

theorem scatterMods_getq_at :
    ∀ (em : List (Mod × Nat)) (ei : List Nat) (ms : List Mod) (k : Nat)
      (hk : k < ei.length) (hke : k < em.length),
      ei.Pairwise (· < ·) → (∀ p ∈ ei, p < ms.length) →
      (scatterMods ms em ei)[ei.get ⟨k, hk⟩]? = some ((em.get ⟨k, hke⟩).1) := by
  intro em
  induction em with
  | nil => intro ei ms k hk hke; simp at hke
  | cons x em ih =>
    intro ei ms k hk hke hpw hb
    obtain ⟨m, v⟩ := x
    match ei, hk with
    | i :: ei2, hk =>
      rw [List.pairwise_cons] at hpw
      rw [scatterMods_cons]
      match k, hk, hke with
      | 0, _, _ =>
        have hni : i ∉ ei2 := fun hmem => by have := hpw.1 i hmem; omega
        rw [show (i :: ei2).get ⟨0, by simp⟩ = i from rfl]
        rw [scatterMods_getq_not_mem em ei2 (ms.set i m) i hni]
        exact set_getq_eq ms i m (hb i (by simp))
      | k2 + 1, hk, hke =>
        rw [show (i :: ei2).get ⟨k2 + 1, hk⟩ = ei2.get ⟨k2, by simpa using hk⟩ from rfl]
        rw [show ((m, v) :: em).get ⟨k2 + 1, hke⟩ = em.get ⟨k2, by simpa using hke⟩ from rfl]
        apply ih ei2 (ms.set i m) k2 _ _ hpw.2
        intro p hp
        rw [List.length_set]
        exact hb p (by simp [hp])

theorem scatterMods_mem :
    ∀ (em : List (Mod × Nat)) (ei : List Nat) (ms : List Mod) (x : Mod),
      x ∈ scatterMods ms em ei → x ∈ ms ∨ x ∈ em.map Prod.fst := by
  intro em
  induction em with
  | nil => intro ei ms x hx; exact Or.inl hx
  | cons y em ih =>
    intro ei ms x hx
    obtain ⟨m, v⟩ := y
    match ei with
    | [] => exact Or.inl hx
    | i :: ei2 =>
      rw [scatterMods_cons] at hx
      rcases ih ei2 (ms.set i m) x hx with h | h
      · rcases List.mem_or_eq_of_mem_set h with h2 | h2
        · exact Or.inl h2
        · exact Or.inr (by simp [h2])
      · exact Or.inr (by simp at h ⊢; exact Or.inr h)

theorem insertByKey_perm (x : Mod × Nat) :
    ∀ l : List (Mod × Nat), (insertByKey x l).Perm (x :: l) := by
  intro l
  induction l with
  | nil => exact List.Perm.refl _
  | cons y ys ih =>
    rw [insertByKey]
    by_cases h : x.2 < y.2
    · rw [if_pos h]
    · rw [if_neg h]
      exact (ih.cons y).trans (List.Perm.swap x y ys)

theorem sortByKey_perm : ∀ l : List (Mod × Nat), (sortByKey l).Perm l := by
  intro l
  induction l with
  | nil => exact List.Perm.refl _
  | cons x xs ih =>
    rw [sortByKey]
    exact (insertByKey_perm x (sortByKey xs)).trans (ih.cons x)

theorem insertByKey_pairwise (x : Mod × Nat) :
    ∀ l : List (Mod × Nat), l.Pairwise (fun a b => a.2 ≤ b.2) →
      (insertByKey x l).Pairwise (fun a b => a.2 ≤ b.2) := by
  intro l
  induction l with
  | nil => intro _; simp [insertByKey]
  | cons y ys ih =>
    intro h
    rw [List.pairwise_cons] at h
    rw [insertByKey]
    by_cases hlt : x.2 < y.2
    · rw [if_pos hlt]
      rw [List.pairwise_cons]
      refine ⟨?_, List.pairwise_cons.2 h⟩
      intro z hz
      rcases List.mem_cons.1 hz with h2 | h2
      · cases h2
        omega
      · have := h.1 z h2
        omega
    · rw [if_neg hlt]
      rw [List.pairwise_cons]
      refine ⟨?_, ih h.2⟩
      intro z hz
      have hz2 := (insertByKey_perm x ys).mem_iff.1 hz
      rcases List.mem_cons.1 hz2 with h2 | h2
      · cases h2
        omega
      · exact h.1 z h2

theorem sortByKey_pairwise :
    ∀ l : List (Mod × Nat), (sortByKey l).Pairwise (fun a b => a.2 ≤ b.2) := by
  intro l
  induction l with
  | nil => simp [sortByKey]
  | cons x xs ih =>
    rw [sortByKey]
    exact insertByKey_pairwise x (sortByKey xs) ih


theorem isEnabled_of_normal (m : Mod) (nm : NormalMod) (hk : m.kind = ModKind.normal nm) :
    m.isEnabled = nm.enabled := by
  rw [Mod.isEnabled, hk]

theorem pass1_em_mem (pm : List (List Nat × Nat)) :
    ∀ (l : List Mod) (i : Nat) (x : Mod × Nat), x ∈ (pass1 pm l i).2.1 →
      lookupA x.1.id pm = some x.2 ∧ x.1.isEnabled = true := by
  intro l
  induction l with
  | nil => intro i x hx; rw [pass1_nil] at hx; cases hx
  | cons m rest ih =>
    intro i x hx
    cases hk : m.kind with
    | normal nm =>
      cases hl : lookupA m.id pm with
      | some v =>
        rw [pass1_cons_normal_some pm m rest i nm v hk hl] at hx
        dsimp only at hx
        rcases List.mem_cons.1 hx with h | h
        · cases h
          exact ⟨hl, rfl⟩
        · exact ih (i + 1) x h
      | none =>
        rw [pass1_cons_normal_none pm m rest i nm hk hl] at hx
        dsimp only at hx
        exact ih (i + 1) x hx
    | translation =>
      rw [pass1_cons_translation pm m rest i hk] at hx
      dsimp only at hx
      exact ih (i + 1) x hx
    | gamemode =>
      rw [pass1_cons_gamemode pm m rest i hk] at hx
      dsimp only at hx
      exact ih (i + 1) x hx

/-- C5: after `ModPack::apply`, the mods that end up enabled appear in the
target mod list in the same relative order as their identifiers appear in
the pack's (duplicate-free) mod-id list, while every list position whose
flag-updated mod is not enabled still holds exactly that flag-updated
original mod, so disabled and unmentioned mods retain their positions. -/
theorem apply_preserves_pack_order (p : ModPack) (cfg : ModListConfig)
    (hnd : p.mods.Nodup) :
    ((ModPack.apply p cfg).mods.filter Mod.isEnabled).Pairwise
        (fun a b => idxOfKey a.id p.mods ≤ idxOfKey b.id p.mods)
    ∧ (ModPack.apply p cfg).mods.length = cfg.mods.length
    ∧ ∀ j (hj : j < cfg.mods.length),
        (flagUpdate (buildEnabledMap p.mods 0 []) (cfg.mods.get ⟨j, hj⟩)).isEnabled = false →
        (ModPack.apply p cfg).mods[j]?
          = some (flagUpdate (buildEnabledMap p.mods 0 []) (cfg.mods.get ⟨j, hj⟩)) := by
  obtain ⟨s1, s2, s3, s4, s5⟩ := pass1_spec (buildEnabledMap p.mods 0 []) cfg.mods
  set pm := buildEnabledMap p.mods 0 [] with hpm
  set P := pass1 pm cfg.mods 0 with hP
  have happly : (ModPack.apply p cfg).mods
      = scatterMods P.1 (sortByKey P.2.1) P.2.2 := rfl
  have hlen_ms : P.1.length = cfg.mods.length := by rw [s1, List.length_map]
  have hL : (ModPack.apply p cfg).mods.length = cfg.mods.length := by
    rw [happly, scatterMods_length, hlen_ms]
  have hlen2 : P.2.1.length = P.2.2.length := s4.length_eq
  have hlenS : (sortByKey P.2.1).length = P.2.2.length := by
    rw [(sortByKey_perm P.2.1).length_eq, hlen2]
  have hbound : ∀ q ∈ P.2.2, q < P.1.length := by
    intro q hq
    rw [hlen_ms]
    exact s3 q hq
  have hidx : ∀ x ∈ sortByKey P.2.1, x.2 = idxOfKey x.1.id p.mods := by
    intro x hx
    have hx2 : x ∈ P.2.1 := (sortByKey_perm P.2.1).mem_iff.1 hx
    obtain ⟨hlk, hen⟩ := pass1_em_mem pm cfg.mods 0 x hx2
    have hbm := lookupA_buildEnabledMap_nodup p.mods 0 [] x.1.id hnd
    rw [← hpm, hlk] at hbm
    by_cases hmem : x.1.id ∈ p.mods
    · rw [if_pos hmem] at hbm
      have := Option.some.inj hbm
      omega
    · rw [if_neg hmem] at hbm
      simp [lookupA] at hbm
  have hchar : ∀ j (hj : j < cfg.mods.length), j ∉ P.2.2 →
      (ModPack.apply p cfg).mods[j]? = some (flagUpdate pm (cfg.mods.get ⟨j, hj⟩)) := by
    intro j hj hno
    rw [happly, scatterMods_getq_not_mem _ _ _ _ hno, s1, List.getElem?_map,
      List.getElem?_eq_getElem hj]
    rfl
  have hmem_of_enabled : ∀ j (hj : j < (ModPack.apply p cfg).mods.length),
      ((ModPack.apply p cfg).mods.get ⟨j, hj⟩).isEnabled = true → j ∈ P.2.2 := by
    intro j hj hen
    by_contra hno
    have hj2 : j < cfg.mods.length := by rwa [hL] at hj
    have h1 := hchar j hj2 hno
    have h2 : (ModPack.apply p cfg).mods[j]?
        = some ((ModPack.apply p cfg).mods.get ⟨j, hj⟩) := by
      rw [List.getElem?_eq_getElem hj]
      rfl
    rw [h1] at h2
    have h3 := Option.some.inj h2
    apply hno
    apply (s5 j).2
    refine ⟨flagUpdate pm (cfg.mods.get ⟨j, hj2⟩), ?_, ?_⟩
    · rw [List.getElem?_map, List.getElem?_eq_getElem hj2]
      rfl
    · rw [h3]
      exact hen
  have hpw : (ModPack.apply p cfg).mods.Pairwise
      (fun a b => a.isEnabled = true → b.isEnabled = true →
        idxOfKey a.id p.mods ≤ idxOfKey b.id p.mods) := by
    rw [List.pairwise_iff_get]
    intro i1 i2 hlt ha hb
    have hm1 : i1.1 ∈ P.2.2 := hmem_of_enabled i1.1 i1.2 ha
    have hm2 : i2.1 ∈ P.2.2 := hmem_of_enabled i2.1 i2.2 hb
    obtain ⟨n1, hn1⟩ := List.get_of_mem hm1
    obtain ⟨n2, hn2⟩ := List.get_of_mem hm2
    have hlt' : i1.1 < i2.1 := hlt
    have hn12 : n1.1 < n2.1 := by
      rcases Nat.lt_trichotomy n1.1 n2.1 with h | h | h
      · exact h
      · exfalso
        rw [Fin.ext h] at hn1
        rw [hn1] at hn2
        omega
      · exfalso
        have := List.pairwise_iff_get.1 s2 n2 n1 h
        rw [hn1, hn2] at this
        omega
    have hk1 : n1.1 < (sortByKey P.2.1).length := by rw [hlenS]; exact n1.2
    have hk2 : n2.1 < (sortByKey P.2.1).length := by rw [hlenS]; exact n2.2
    have hv1 : (ModPack.apply p cfg).mods[P.2.2.get n1]?
        = some (((sortByKey P.2.1).get ⟨n1.1, hk1⟩).1) := by
      rw [happly]
      exact scatterMods_getq_at (sortByKey P.2.1) P.2.2 P.1 n1.1 n1.2 hk1 s2 hbound
    have hv2 : (ModPack.apply p cfg).mods[P.2.2.get n2]?
        = some (((sortByKey P.2.1).get ⟨n2.1, hk2⟩).1) := by
      rw [happly]
      exact scatterMods_getq_at (sortByKey P.2.1) P.2.2 P.1 n2.1 n2.2 hk2 s2 hbound
    rw [hn1] at hv1
    rw [hn2] at hv2
    have hg1 : (ModPack.apply p cfg).mods[i1.1]?
        = some ((ModPack.apply p cfg).mods.get i1) := List.getElem?_eq_getElem i1.2
    have hg2 : (ModPack.apply p cfg).mods[i2.1]?
        = some ((ModPack.apply p cfg).mods.get i2) := List.getElem?_eq_getElem i2.2
    have heq1 := Option.some.inj (hg1.symm.trans hv1)
    have heq2 := Option.some.inj (hg2.symm.trans hv2)
    rw [heq1, heq2]
    have e1 := hidx ((sortByKey P.2.1).get ⟨n1.1, hk1⟩) (List.get_mem _ _ hk1)
    have e2 := hidx ((sortByKey P.2.1).get ⟨n2.1, hk2⟩) (List.get_mem _ _ hk2)
    rw [← e1, ← e2]
    exact List.pairwise_iff_get.1 (sortByKey_pairwise P.2.1) ⟨n1.1, hk1⟩ ⟨n2.1, hk2⟩ hn12
  refine ⟨?_, hL, ?_⟩
  · have hfil := hpw.filter Mod.isEnabled
    refine List.Pairwise.imp_of_mem ?_ hfil
    intro a b hamem hbmem hR
    exact hR (List.mem_filter.1 hamem).2 (List.mem_filter.1 hbmem).2
  · intro j hj hfen
    have hno : j ∉ P.2.2 := by
      intro hin
      obtain ⟨m0, hm0, hen0⟩ := (s5 j).1 hin
      rw [List.getElem?_map, List.getElem?_eq_getElem hj] at hm0
      have hm0' : flagUpdate pm (cfg.mods.get ⟨j, hj⟩) = m0 := Option.some.inj hm0
      rw [← hm0'] at hen0
      rw [hfen] at hen0
      exact Bool.noConfusion hen0
    exact hchar j hj hno

/-- C6: after `ModPack::apply`, every `Normal`-kind mod in the result list is
enabled exactly when its id appears in the pack's mod-id list, and every
settings entry of the pack is present in the target store under its key,
overwriting any pre-existing entry. -/
theorem apply_sets_flags_and_merges_settings (p : ModPack) (cfg : ModListConfig)
    (hset : (p.settings.map Prod.fst).Nodup) :
    (∀ m ∈ (ModPack.apply p cfg).mods, ∀ nm, m.kind = ModKind.normal nm →
        (nm.enabled = true ↔ m.id ∈ p.mods))
    ∧ ∀ e ∈ p.settings, lookupA e.1 (ModPack.apply p cfg).mod_settings = some e.2 := by
  constructor
  · intro m hm nm hknm
    obtain ⟨s1, _s2, _s3, _s4, _s5⟩ := pass1_spec (buildEnabledMap p.mods 0 []) cfg.mods
    set pm := buildEnabledMap p.mods 0 [] with hpm
    set P := pass1 pm cfg.mods 0 with hP
    have happly : (ModPack.apply p cfg).mods
        = scatterMods P.1 (sortByKey P.2.1) P.2.2 := rfl
    rw [happly] at hm
    have hsome_iff : ∀ mid : List Nat, (lookupA mid pm).isSome ↔ mid ∈ p.mods := by
      intro mid
      rw [hpm, lookupA_buildEnabledMap_isSome p.mods 0 [] mid]
      simp [lookupA]
    rcases scatterMods_mem _ _ _ m hm with h | h
    · rw [s1] at h
      obtain ⟨m0, hm0, hFm⟩ := List.mem_map.1 h
      have hiff := flagUpdate_normal pm m0 nm (by rw [hFm]; exact hknm)
      rw [hsome_iff m0.id] at hiff
      have hid : m.id = m0.id := by rw [← hFm, flagUpdate_id]
      rw [hid]
      exact hiff
    · obtain ⟨x, hx, hxm⟩ := List.mem_map.1 h
      have hx2 : x ∈ P.2.1 := (sortByKey_perm P.2.1).mem_iff.1 hx
      obtain ⟨hlk, hen⟩ := pass1_em_mem pm cfg.mods 0 x hx2
      rw [hxm] at hlk hen
      have hmem : m.id ∈ p.mods := by
        rw [← hsome_iff m.id, hlk]
        rfl
      have hentrue : nm.enabled = true := by
        rw [← isEnabled_of_normal m nm hknm]
        exact hen
      constructor
      · intro _
        exact hmem
      · intro _
        exact hentrue
  · intro e he
    have happly2 : (ModPack.apply p cfg).mod_settings
        = insertAll cfg.mod_settings p.settings := rfl
    rw [happly2]
    exact lookupA_insertAll_mem_nodup cfg.mod_settings hset he

/-- Witness for C5 at the spec's own example: pack `[C, A]` against the list
`A(false), B(true), C(false)`. -/
theorem apply_preserves_pack_order_witness :
    packC5.mods.Nodup
    ∧ (((ModPack.apply packC5 cfgC5).mods.filter Mod.isEnabled).Pairwise
          (fun a b => idxOfKey a.id packC5.mods ≤ idxOfKey b.id packC5.mods)
        ∧ (ModPack.apply packC5 cfgC5).mods.length = cfgC5.mods.length
        ∧ ∀ j (hj : j < cfgC5.mods.length),
            (flagUpdate (buildEnabledMap packC5.mods 0 [])
                (cfgC5.mods.get ⟨j, hj⟩)).isEnabled = false →
            (ModPack.apply packC5 cfgC5).mods[j]?
              = some (flagUpdate (buildEnabledMap packC5.mods 0 [])
                  (cfgC5.mods.get ⟨j, hj⟩))) :=
  ⟨by decide, apply_preserves_pack_order packC5 cfgC5 (by decide)⟩

/-- Witness for C6: the pack enables `A` and `C`, disables `B`, and its
settings entry for `"k"` overwrites the target's pre-existing entry. -/
theorem apply_sets_flags_and_merges_settings_witness :
    (packC6.settings.map Prod.fst).Nodup
    ∧ ((∀ m ∈ (ModPack.apply packC6 cfgC6).mods, ∀ nm, m.kind = ModKind.normal nm →
          (nm.enabled = true ↔ m.id ∈ packC6.mods))
        ∧ ∀ e ∈ packC6.settings,
            lookupA e.1 (ModPack.apply packC6 cfgC6).mod_settings = some e.2) :=
  ⟨by decide, apply_sets_flags_and_merges_settings packC6 cfgC6 (by decide)⟩

end Modman
